import Mathlib

/-!
# cvec2: a single-header growable array of fixed-size byte elements

Shallow embedding of `src/cvec2.h`.

* `size_t` values are natural numbers; every `size_t` operation of the source
  is written with an explicit reduction modulo `SIZE_MOD szt = 2 ^ (8 * szt)`,
  where `szt` is `sizeof(size_t)` in bytes.
* A pointer to an allocated object is the contents of the object
  (`some bytes`); the null pointer is `none`.  A byte access outside the object
  or through the null pointer is a `Fault` (undefined behaviour in C).
* The allocator functions are black boxes that transform a heap state `H`.
* The loop of `cvec2_grow` may diverge, so it runs on fuel.
-/

set_option maxRecDepth 1000000

namespace Cvec2

/-- What can go wrong while running the embedded code. -/
inductive Fault where
  | out_of_fuel
  | out_of_bounds
  | null_pointer
  deriving DecidableEq, Repr

deriving instance DecidableEq for Except

/-- One call made to the standard library allocator. -/
inductive alloc_call where
  | alloc (size : Nat)
  | free
  | realloc (size : Nat)
  deriving DecidableEq, Repr

/-- The `struct cvec2_allocator_set`: three function pointers, each acting on the heap `H`. -/
structure cvec2_allocator_set (H : Type) where
  alloc : Nat → H → Option (List UInt8) × H
  free : Option (List UInt8) → H → H
  realloc : Option (List UInt8) → Nat → H → Option (List UInt8) × H

/-- The `cvec2_t` struct. -/
structure cvec2_t (H : Type) where
  ptr : Option (List UInt8)
  len : Nat
  cap : Nat
  elem_size : Nat
  allocator_set : cvec2_allocator_set H

/-- One more than `SIZE_MAX` where `sizeof(size_t) = szt`. -/
def SIZE_MOD (szt : Nat) : Nat := 2 ^ (8 * szt)

/-- The `size_t` sum `a + b`. -/
def size_add (szt a b : Nat) : Nat := (a + b) % SIZE_MOD szt

/-- The `size_t` difference `a - b`. -/
def size_sub (szt a b : Nat) : Nat := (a + (SIZE_MOD szt - b % SIZE_MOD szt)) % SIZE_MOD szt

/-- The `size_t` product `a * b`. -/
def size_mul (szt a b : Nat) : Nat := (a * b) % SIZE_MOD szt

/-- The macro `CVEC2_DEFAULT_CAP`, `(sizeof(size_t) * 8)`. -/
def CVEC2_DEFAULT_CAP (szt : Nat) : Nat := size_mul szt szt 8

/-- The macro `CVEC2_DEFAULT_GROWTH`. -/
def CVEC2_DEFAULT_GROWTH : Nat := 2

/-- The fault of a byte access that misses the object `p`: through the null pointer, or
outside the bounds of an allocated object. -/
def access_fault (p : Option (List UInt8)) : Fault :=
  match p with
  | none => .null_pointer
  | some _ => .out_of_bounds

/-- Reading the byte `p[i]`. -/
def load (p : Option (List UInt8)) (i : Nat) : Except Fault UInt8 :=
  match p with
  | none => .error .null_pointer
  | some b =>
    match b.get? i with
    | none => .error .out_of_bounds
    | some x => .ok x

/-- Writing the byte `p[i] = x`. -/
def store (p : Option (List UInt8)) (i : Nat) (x : UInt8) : Except Fault (Option (List UInt8)) :=
  match p with
  | none => .error .null_pointer
  | some b => if i < b.length then .ok (some (b.set i x)) else .error .out_of_bounds

/-- The byte loop of `cvec2_memcpy(&dst[t], &frm[f], size)` when `dst` and `frm` are
different objects; the result is the new contents of `dst`. -/
def cvec2_memcpy (dst : Option (List UInt8)) (t : Nat) (frm : Option (List UInt8)) (f : Nat) (size : Nat) :
    Except Fault (Option (List UInt8)) :=
  match size with
  | 0 => .ok dst
  | n + 1 =>
    match load frm f with
    | .error e => .error e
    | .ok x =>
      match store dst t x with
      | .error e => .error e
      | .ok q => cvec2_memcpy q (t + 1) frm (f + 1) n

/-- The byte loop of `cvec2_memcpy(&p[t], &p[f], size)` when both pointers point into
the same object `p`: each byte is read from the object as the earlier iterations left it. -/
def cvec2_memcpy_within (p : Option (List UInt8)) (t f : Nat) (size : Nat) :
    Except Fault (Option (List UInt8)) :=
  match size with
  | 0 => .ok p
  | n + 1 =>
    match load p f with
    | .error e => .error e
    | .ok x =>
      match store p t x with
      | .error e => .error e
      | .ok q => cvec2_memcpy_within q (t + 1) (f + 1) n

/-- The standard library allocator `malloc`/`realloc`/`free` behind
`cvec2_SG_default_allocator_set`: it never fails, a reallocation keeps the common
initial part of the contents, fresh bytes read as `0xAA`, and every call is logged. -/
def cvec2_SG_default_allocator_set : cvec2_allocator_set (List alloc_call) where
  alloc := fun size h => (some (List.replicate size 0xAA), h ++ [alloc_call.alloc size])
  free := fun _ h => h ++ [alloc_call.free]
  realloc := fun p size h =>
    (some ((p.getD []).take size ++ List.replicate (size - (p.getD []).length) 0xAA),
      h ++ [alloc_call.realloc size])

/-- The function `cvec2_init_default`. -/
def cvec2_init_default (szt : Nat) (size : Nat) (h : List alloc_call) :
    cvec2_t (List alloc_call) × List alloc_call :=
  let r := cvec2_SG_default_allocator_set.alloc (size_mul szt (CVEC2_DEFAULT_CAP szt) size) h
  ({ ptr := r.1, cap := CVEC2_DEFAULT_CAP szt, len := 0, elem_size := size,
     allocator_set := cvec2_SG_default_allocator_set }, r.2)

/-- The function `cvec2_init_alloc`. -/
def cvec2_init_alloc {H : Type} (szt : Nat) (set : cvec2_allocator_set H) (member_size : Nat) (h : H) :
    cvec2_t H × H :=
  let r := set.alloc (size_mul szt (CVEC2_DEFAULT_CAP szt) member_size) h
  ({ ptr := r.1, cap := CVEC2_DEFAULT_CAP szt, len := 0, elem_size := member_size,
     allocator_set := set }, r.2)

/-- The function `cvec2_destroy`. -/
def cvec2_destroy {H : Type} (vec : cvec2_t H) (h : H) : cvec2_t H × H :=
  match vec.ptr with
  | some b =>
    ({ vec with ptr := none, len := 0, cap := 0, elem_size := 0 }, vec.allocator_set.free (some b) h)
  | none => (vec, h)

/-- The loop `while (vector->cap < cap) vector->cap *= CVEC2_DEFAULT_GROWTH;` of
`cvec2_grow`, on the value of `vector->cap`. -/
def cvec2_grow_loop (szt : Nat) (fuel : Nat) (vcap : Nat) (cap : Nat) : Except Fault Nat :=
  match fuel with
  | 0 => .error .out_of_fuel
  | k + 1 =>
    if vcap < cap then cvec2_grow_loop szt k (size_mul szt vcap CVEC2_DEFAULT_GROWTH) cap
    else .ok vcap

/-- The function `cvec2_grow`. -/
def cvec2_grow {H : Type} (szt fuel : Nat) (vector : cvec2_t H) (cap : Nat) (h : H) :
    Except Fault (cvec2_t H × H) :=
  match cvec2_grow_loop szt fuel vector.cap cap with
  | .error e => .error e
  | .ok c =>
    let r := vector.allocator_set.realloc vector.ptr (size_mul szt c vector.elem_size) h
    .ok ({ vector with cap := c, ptr := r.1 }, r.2)

/-- The function `cvec2_resize`. -/
def cvec2_resize {H : Type} (vector : cvec2_t H) (size : Nat) (h : H) : cvec2_t H × H :=
  let r := vector.allocator_set.realloc vector.ptr size h
  ({ vector with cap := size, ptr := r.1 }, r.2)

/-- The function `cvec2_reserve`. -/
def cvec2_reserve {H : Type} (szt : Nat) (vector : cvec2_t H) (size : Nat) (h : H) : cvec2_t H × H :=
  if vector.cap ≥ size then (vector, h)
  else
    let r := vector.allocator_set.realloc vector.ptr (size_mul szt size vector.elem_size) h
    ({ vector with cap := size, ptr := r.1 }, r.2)

/-- The function `cvec2_push`; `data` is the object the argument points to.
`CVEC2_GET_BYTE_INDEX_OF(vector, vector->len)` expands to `elem_size * vector->len`. -/
def cvec2_push {H : Type} (szt fuel : Nat) (vector : cvec2_t H) (data : List UInt8) (h : H) :
    Except Fault (cvec2_t H × H) :=
  match cvec2_grow szt fuel vector (size_add szt vector.len 1) h with
  | .error e => .error e
  | .ok (v, h1) =>
    match cvec2_memcpy v.ptr (size_mul szt v.elem_size v.len) (some data) 0 v.elem_size with
    | .error e => .error e
    | .ok q => .ok ({ v with ptr := q, len := size_add szt v.len 1 }, h1)

/-- The function `cvec2_pop`; `into` is the object the argument points to, and its new
contents are returned.  `CVEC2_GET_BYTE_INDEX_OF(vector, vector->len - 1)` expands to
`elem_size * vector->len - 1`: the macro does not parenthesise its argument. -/
def cvec2_pop {H : Type} (szt : Nat) (vector : cvec2_t H) (into : List UInt8) :
    Except Fault (cvec2_t H × List UInt8) :=
  match cvec2_memcpy (some into) 0 vector.ptr
      (size_sub szt (size_mul szt vector.elem_size vector.len) 1) vector.elem_size with
  | .error e => .error e
  | .ok q => .ok ({ vector with len := size_sub szt vector.len 1 }, q.getD [])

/-- The loop `for (size_t i = vector->len; i > whence; i--)` of `cvec2_insert`, with
`k = i - whence` iterations left.  `byte_idx_here` is `elem_size * i` and
`byte_idx_before`, `CVEC2_GET_BYTE_INDEX_OF(vector, i - 1)`, expands to
`elem_size * i - 1`. -/
def cvec2_insert_loop (szt elem_size whence : Nat) (p : Option (List UInt8)) (k : Nat) :
    Except Fault (Option (List UInt8)) :=
  match k with
  | 0 => .ok p
  | j + 1 =>
    let i := whence + (j + 1)
    let byte_idx_here := size_mul szt elem_size i
    let byte_idx_before := size_sub szt (size_mul szt elem_size i) 1
    match cvec2_memcpy_within p byte_idx_here byte_idx_before elem_size with
    | .error e => .error e
    | .ok q => cvec2_insert_loop szt elem_size whence q j

/-- The function `cvec2_insert`; `frm` is the object the argument `from` points to. -/
def cvec2_insert {H : Type} (szt fuel : Nat) (vector : cvec2_t H) (frm : List UInt8) (whence : Nat) (h : H) :
    Except Fault (cvec2_t H × H) :=
  match cvec2_grow szt fuel vector (size_add szt vector.len 1) h with
  | .error e => .error e
  | .ok (v, h1) =>
    match cvec2_insert_loop szt v.elem_size whence v.ptr (v.len - whence) with
    | .error e => .error e
    | .ok q =>
      match cvec2_memcpy q (size_mul szt v.elem_size whence) (some frm) 0 v.elem_size with
      | .error e => .error e
      | .ok q2 => .ok ({ v with ptr := q2, len := size_add szt v.len 1 }, h1)

/-- The function `cvec2_insert_fast`: the displaced element is copied to `&vector->ptr[vector->len]`
(the byte index `len`, not `elem_size * len`), and `vector->len` is not changed. -/
def cvec2_insert_fast {H : Type} (szt fuel : Nat) (vector : cvec2_t H) (frm : List UInt8) (whence : Nat)
    (h : H) : Except Fault (cvec2_t H × H) :=
  match cvec2_grow szt fuel vector (size_add szt vector.len 1) h with
  | .error e => .error e
  | .ok (v, h1) =>
    match cvec2_memcpy_within v.ptr v.len (size_mul szt v.elem_size whence) v.elem_size with
    | .error e => .error e
    | .ok q =>
      match cvec2_memcpy q (size_mul szt v.elem_size whence) (some frm) 0 v.elem_size with
      | .error e => .error e
      | .ok q2 => .ok ({ v with ptr := q2 }, h1)

/-- The loop `for (size_t i = whence; i < vector->len; i++)` of `cvec2_remove`, with
`k = len - i` iterations left.  The destination is `elem_size * i`; the source,
`CVEC2_GET_BYTE_INDEX_OF(vector, i + 1)`, expands to `elem_size * i + 1`. -/
def cvec2_remove_loop (szt elem_size len : Nat) (p : Option (List UInt8)) (k : Nat) :
    Except Fault (Option (List UInt8)) :=
  match k with
  | 0 => .ok p
  | j + 1 =>
    let i := len - (j + 1)
    match cvec2_memcpy_within p (size_mul szt elem_size i)
        (size_add szt (size_mul szt elem_size i) 1) elem_size with
    | .error e => .error e
    | .ok q => cvec2_remove_loop szt elem_size len q j

/-- The function `cvec2_remove`. -/
def cvec2_remove {H : Type} (szt : Nat) (vector : cvec2_t H) (whence : Nat) : Except Fault (cvec2_t H) :=
  match cvec2_remove_loop szt vector.elem_size vector.len vector.ptr (vector.len - whence) with
  | .error e => .error e
  | .ok q => .ok { vector with ptr := q, len := size_sub szt vector.len 1 }

/-- The function `cvec2_remove_fast`.  `CVEC2_GET_BYTE_INDEX_OF(vector, vector->len - 1)`
expands to `elem_size * vector->len - 1`. -/
def cvec2_remove_fast {H : Type} (szt : Nat) (vector : cvec2_t H) (whence : Nat) : Except Fault (cvec2_t H) :=
  match cvec2_memcpy_within vector.ptr (size_mul szt vector.elem_size whence)
      (size_sub szt (size_mul szt vector.elem_size vector.len) 1) vector.elem_size with
  | .error e => .error e
  | .ok q => .ok { vector with ptr := q, len := size_sub szt vector.len 1 }

/-- The macro `CVEC2_GET(vector, ty, idx)` with `sizeof(ty) = elem_size`: the bytes
`[idx * elem_size, (idx + 1) * elem_size)` of the buffer. -/
def CVEC2_GET {H : Type} (vector : cvec2_t H) (idx : Nat) : Except Fault (List UInt8) :=
  match vector.ptr with
  | none => .error .null_pointer
  | some b =>
    if idx * vector.elem_size + vector.elem_size ≤ b.length then
      .ok ((b.drop (idx * vector.elem_size)).take vector.elem_size)
    else .error .out_of_bounds

/-- The elements at the indices `[0, len)`, read with `CVEC2_GET`. -/
def elements {H : Type} (vector : cvec2_t H) : Except Fault (List (List UInt8)) :=
  (List.range vector.len).mapM (CVEC2_GET vector)

/-- Calling `cvec2_push` on each element of `vs` in order. -/
def push_all {H : Type} (szt fuel : Nat) (vector : cvec2_t H) (vs : List (List UInt8)) (h : H) :
    Except Fault (cvec2_t H × H) :=
  match vs with
  | [] => .ok (vector, h)
  | v :: rest =>
    match cvec2_push szt fuel vector v h with
    | .error e => .error e
    | .ok (w, h1) => push_all szt fuel w rest h1

/-- The four bytes of a little-endian 32-bit `int`. -/
def int_bytes (n : Nat) : List UInt8 :=
  [UInt8.ofNat (n % 256), UInt8.ofNat (n / 256 % 256), UInt8.ofNat (n / 65536 % 256),
    UInt8.ofNat (n / 16777216 % 256)]

/-- The vector of `int`s (`elem_size = 4`, `sizeof(size_t) = 8`) obtained from
`cvec2_init_default` by pushing the values `vals` in order. -/
def int_vector (vals : List Nat) : Except Fault (cvec2_t (List alloc_call) × List alloc_call) :=
  push_all 8 2 (cvec2_init_default 8 4 []).1 (vals.map int_bytes) (cvec2_init_default 8 4 []).2

/-- What a caller can observe of a vector: `len` and the elements at the indices `[0, len)`. -/
def snapshot {H : Type} (vector : cvec2_t H) : Except Fault (Nat × List (List UInt8)) :=
  match elements vector with
  | .error e => .error e
  | .ok l => .ok (vector.len, l)

/-- The vector `[0, 1, 2]` of `int`s built by `int_vector`. -/
def three_ints : cvec2_t (List alloc_call) :=
  match int_vector [0, 1, 2] with
  | .ok (v, _) => v
  | .error _ => (cvec2_init_default 8 4 []).1

/-- An allocator set that never fails and preserves the contents of the buffer: every
request returns an object of exactly the requested size, and a reallocation keeps the
bytes of the old object up to the smaller of the two sizes. -/
def AllocOk {H : Type} (set : cvec2_allocator_set H) : Prop :=
  (∀ n h, ∃ b, (set.alloc n h).1 = some b ∧ b.length = n) ∧
  (∀ p n h, ∃ b, (set.realloc p n h).1 = some b ∧ b.length = n ∧
    b.take (p.getD []).length = (p.getD []).take n)

/-- The buffer of the vector has `cap * elem_size` bytes and starts with the elements
`xs`, each of `elem_size` bytes, and `len` counts them. -/
def Stores {H : Type} (v : cvec2_t H) (xs : List (List UInt8)) : Prop :=
  ∃ rest, v.ptr = some (xs.flatten ++ rest) ∧ (xs.flatten ++ rest).length = v.cap * v.elem_size ∧
    v.len = xs.length ∧ ∀ x ∈ xs, x.length = v.elem_size

/-- An allocator set whose `alloc` and `realloc` always return the null pointer (every
request fails); it logs its calls like the standard one. -/
def null_allocator_set : cvec2_allocator_set (List alloc_call) where
  alloc := fun size h => (none, h ++ [alloc_call.alloc size])
  free := fun _ h => h ++ [alloc_call.free]
  realloc := fun _ size h => (none, h ++ [alloc_call.realloc size])

/-- The body `vector->cap *= CVEC2_DEFAULT_GROWTH` of the loop of `cvec2_grow`, on the
value of `vector->cap`. -/
def cvec2_grow_body (szt vcap : Nat) : Nat := size_mul szt vcap CVEC2_DEFAULT_GROWTH

/-- The vector `[0, 1, 2]` of `int`s with its allocator set replaced by the failing one. -/
def three_ints_failing : cvec2_t (List alloc_call) :=
  { three_ints with allocator_set := null_allocator_set }

/-- An allocator set that serves its first `budget` calls like the standard library
allocator and returns the null pointer from `alloc` and `realloc` from then on; the heap
state is the log of the calls made so far. -/
def exhaustible_allocator_set (budget : Nat) : cvec2_allocator_set (List alloc_call) where
  alloc := fun size h =>
    if h.length < budget then cvec2_SG_default_allocator_set.alloc size h
    else (none, h ++ [alloc_call.alloc size])
  free := fun _ h => h ++ [alloc_call.free]
  realloc := fun p size h =>
    if h.length < budget then cvec2_SG_default_allocator_set.realloc p size h
    else (none, h ++ [alloc_call.realloc size])

/-- The vector `[0, 1, 2]` of `int`s built by `cvec2_init_alloc` and three calls of
`cvec2_push` with an allocator set that serves exactly these four calls, together with the
heap state reached: the next call of `realloc` returns the null pointer. -/
def three_ints_exhausted : cvec2_t (List alloc_call) × List alloc_call :=
  match push_all 8 2 (cvec2_init_alloc 8 (exhaustible_allocator_set 4) 4 []).1
      ([0, 1, 2].map int_bytes) (cvec2_init_alloc 8 (exhaustible_allocator_set 4) 4 []).2 with
  | .ok s => s
  | .error _ => cvec2_init_alloc 8 (exhaustible_allocator_set 4) 4 []

theorem SIZE_MOD_pos (szt : Nat) : 0 < SIZE_MOD szt := by
  unfold SIZE_MOD; positivity

theorem size_add_eq {szt a b : Nat} (h : a + b < SIZE_MOD szt) : size_add szt a b = a + b := by
  unfold size_add; exact Nat.mod_eq_of_lt h

theorem size_mul_eq {szt a b : Nat} (h : a * b < SIZE_MOD szt) : size_mul szt a b = a * b := by
  unfold size_mul; exact Nat.mod_eq_of_lt h

theorem default_cap_eq (szt : Nat) : CVEC2_DEFAULT_CAP szt = szt * 8 := by
  unfold CVEC2_DEFAULT_CAP
  apply size_mul_eq
  unfold SIZE_MOD
  have h1 : 8 * szt < 2 ^ (8 * szt) := Nat.lt_two_pow (8 * szt)
  omega

theorem default_allocator_ok : AllocOk cvec2_SG_default_allocator_set := by
  refine ⟨fun n _ => ⟨_, rfl, by simp⟩, fun p n _ => ⟨_, rfl, ?_, ?_⟩⟩
  · simp; omega
  · rcases Nat.le_total n (p.getD []).length with hle | hle
    · simp [Nat.sub_eq_zero_of_le hle, List.take_take, Nat.min_eq_left hle]
      exact hle
    · rw [List.take_append_of_le_length (by simp; omega)]
      simp [List.take_take, Nat.min_comm]

/-- Copying `data` over the bytes `old` of the destination. -/
theorem memcpy_append (data : List UInt8) :
    ∀ (pre old post dpre dpost : List UInt8), old.length = data.length →
      cvec2_memcpy (some (pre ++ old ++ post)) pre.length (some (dpre ++ data ++ dpost)) dpre.length
        data.length = .ok (some (pre ++ data ++ post)) := by
  induction data with
  | nil =>
    intro pre old post dpre dpost h
    have : old = [] := List.length_eq_zero.mp h
    subst this
    simp [cvec2_memcpy]
  | cons x d ih =>
    intro pre old post dpre dpost h
    cases old with
    | nil => simp at h
    | cons o old2 =>
      have h2 : old2.length = d.length := by simpa using h
      have hg : (dpre ++ x :: d ++ dpost)[dpre.length]? = some x := by
        rw [List.append_assoc, List.getElem?_append_right (le_refl _)]; simp
      have hl : load (some (dpre ++ x :: d ++ dpost)) dpre.length = .ok x := by
        simp only [load, List.get?_eq_getElem?, hg]
      have hs : store (some (pre ++ o :: old2 ++ post)) pre.length x
          = .ok (some ((pre ++ [x]) ++ old2 ++ post)) := by
        simp [store, List.set_append]
      have hrec := ih (pre ++ [x]) old2 post (dpre ++ [x]) dpost h2
      simp only [List.length_append, List.length_singleton] at hrec
      simp only [List.length_cons, cvec2_memcpy, hl, hs]
      have e1 : dpre ++ x :: d ++ dpost = dpre ++ [x] ++ d ++ dpost := by simp
      have e2 : pre ++ x :: d ++ post = pre ++ [x] ++ d ++ post := by simp
      rw [e1, e2]
      exact hrec

/-- Reading the element `i` of a buffer that starts with the elements `xs`. -/
theorem slice_flatten (es : Nat) (xs : List (List UInt8)) (hxs : ∀ x ∈ xs, x.length = es) :
    ∀ (i : Nat) (rest : List UInt8) (hi : i < xs.length),
      ((xs.flatten ++ rest).drop (i * es)).take es = xs[i] := by
  induction xs with
  | nil => intro i rest hi; simp at hi
  | cons x xs ih =>
    intro i rest hi
    have hx : x.length = es := hxs x (by simp)
    cases i with
    | zero =>
      simp only [Nat.zero_mul, List.drop_zero, List.flatten_cons, List.append_assoc,
        List.getElem_cons_zero]
      rw [← hx]; simp
    | succ j =>
      have hj : j < xs.length := by simpa using hi
      have e : (j + 1) * es = x.length + j * es := by rw [hx]; ring
      simp only [List.flatten_cons, List.append_assoc, e, List.drop_append, List.getElem_cons_succ]
      exact ih (fun y hy => hxs y (by simp [hy])) j rest hj

theorem length_flatten_uniform (es : Nat) (xs : List (List UInt8)) (hxs : ∀ x ∈ xs, x.length = es) :
    xs.flatten.length = xs.length * es := by
  induction xs with
  | nil => simp
  | cons x xs ih =>
    have hx : x.length = es := hxs x (by simp)
    have := ih (fun y hy => hxs y (by simp [hy]))
    simp [List.flatten_cons, this, hx]; ring

theorem grow_loop_ge (szt fuel vcap n : Nat) (h : n ≤ vcap) (hf : 1 ≤ fuel) :
    cvec2_grow_loop szt fuel vcap n = .ok vcap := by
  cases fuel with
  | zero => omega
  | succ k => simp [cvec2_grow_loop, Nat.not_lt.mpr h]

theorem grow_loop_once (szt fuel vcap n : Nat) (h : vcap < n) (h2 : n ≤ 2 * vcap)
    (hM : 2 * vcap < SIZE_MOD szt) (hf : 2 ≤ fuel) :
    cvec2_grow_loop szt fuel vcap n = .ok (2 * vcap) := by
  cases fuel with
  | zero => omega
  | succ k =>
    have hm : size_mul szt vcap CVEC2_DEFAULT_GROWTH = 2 * vcap := by
      rw [size_mul_eq] <;> simp [CVEC2_DEFAULT_GROWTH] <;> omega
    simp only [cvec2_grow_loop, h, if_true, hm]
    exact grow_loop_ge szt k (2 * vcap) n h2 (by omega)

theorem stores_len_le_cap {H : Type} (v : cvec2_t H) (xs : List (List UInt8)) (hst : Stores v xs)
    (hes : 0 < v.elem_size) : v.len ≤ v.cap := by
  obtain ⟨rest, _, hlen, hl, hxs⟩ := hst
  have hfl := length_flatten_uniform v.elem_size xs hxs
  rw [List.length_append, hfl, ← hl] at hlen
  have : v.len * v.elem_size ≤ v.cap * v.elem_size := by omega
  exact Nat.le_of_mul_le_mul_right this hes

theorem push_step {H : Type} (szt fuel : Nat) (v : cvec2_t H) (xs : List (List UInt8))
    (data : List UInt8) (h : H) (B : Nat) (hok : AllocOk v.allocator_set) (hst : Stores v xs)
    (hes : 0 < v.elem_size) (hd : data.length = v.elem_size) (hcap : 1 ≤ v.cap)
    (hB1 : v.cap ≤ B) (hB2 : v.cap < v.len + 1 → 2 * v.cap ≤ B)
    (hfit : B * v.elem_size < SIZE_MOD szt) (hfuel : 2 ≤ fuel) :
    ∃ w h1, cvec2_push szt fuel v data h = .ok (w, h1) ∧ Stores w (xs ++ [data]) ∧
      w.elem_size = v.elem_size ∧ w.allocator_set = v.allocator_set ∧
      (w.cap = v.cap ∨ (v.cap < v.len + 1 ∧ w.cap = 2 * v.cap)) := by
  have hlc := stores_len_le_cap v xs hst hes
  obtain ⟨rest, hp, hlen, hl, hxs⟩ := hst
  have hfl := length_flatten_uniform v.elem_size xs hxs
  have hBM : B < SIZE_MOD szt := lt_of_le_of_lt (Nat.le_mul_of_pos_right _ hes) hfit
  have hadd : size_add szt v.len 1 = v.len + 1 := by
    apply size_add_eq
    by_cases hc : v.cap < v.len + 1
    · have := hB2 hc; omega
    · omega
  -- the loop of grow
  have hloop : ∃ c, cvec2_grow_loop szt fuel v.cap (v.len + 1) = .ok c ∧ v.len + 1 ≤ c ∧
      v.cap ≤ c ∧ c ≤ B ∧ (c = v.cap ∨ (v.cap < v.len + 1 ∧ c = 2 * v.cap)) := by
    by_cases hc : v.cap < v.len + 1
    · have := hB2 hc
      exact ⟨2 * v.cap, grow_loop_once szt fuel v.cap (v.len + 1) hc (by omega) (by omega) hfuel,
        by omega, by omega, this, Or.inr ⟨hc, rfl⟩⟩
    · exact ⟨v.cap, grow_loop_ge szt fuel v.cap (v.len + 1) (by omega) (by omega), by omega,
        le_refl _, hB1, Or.inl rfl⟩
  obtain ⟨c, hc, hc1, hc2, hc3, hc4⟩ := hloop
  have hcM : c * v.elem_size < SIZE_MOD szt :=
    lt_of_le_of_lt (Nat.mul_le_mul_right _ hc3) hfit
  have hmul : size_mul szt c v.elem_size = c * v.elem_size := size_mul_eq hcM
  -- the reallocation
  obtain ⟨b, hb, hbl, hbt⟩ := hok.2 v.ptr (c * v.elem_size) h
  rw [hp] at hbt
  simp only [Option.getD_some] at hbt
  have hle : (xs.flatten ++ rest).length ≤ c * v.elem_size := by
    rw [hlen]; exact Nat.mul_le_mul_right _ hc2
  rw [List.take_of_length_le hle] at hbt
  have hbe : b = xs.flatten ++ (rest ++ b.drop (xs.flatten ++ rest).length) := by
    rw [← List.append_assoc]
    conv_lhs => rw [← List.take_append_drop (xs.flatten ++ rest).length b, hbt]
  generalize hR : rest ++ b.drop (xs.flatten ++ rest).length = R at hbe
  have hRl : v.elem_size ≤ R.length := by
    have e := congrArg List.length hbe
    rw [hbl, List.length_append, hfl, ← hl] at e
    have : (v.len + 1) * v.elem_size ≤ c * v.elem_size := Nat.mul_le_mul_right _ hc1
    have e2 : (v.len + 1) * v.elem_size = v.len * v.elem_size + v.elem_size := by ring
    omega
  have hbe2 : b = xs.flatten ++ R.take v.elem_size ++ R.drop v.elem_size := by
    rw [List.append_assoc, List.take_append_drop]; exact hbe
  have hidx : size_mul szt v.elem_size v.len = xs.flatten.length := by
    rw [hfl, ← hl, Nat.mul_comm]
    apply size_mul_eq
    have : v.len * v.elem_size ≤ c * v.elem_size := Nat.mul_le_mul_right _ (by omega)
    rw [Nat.mul_comm]
    omega
  have hcopy := memcpy_append data xs.flatten (R.take v.elem_size) (R.drop v.elem_size) [] []
    (by rw [List.length_take, hd]; omega)
  simp only [List.nil_append, List.append_nil, List.length_nil, hd] at hcopy
  refine ⟨⟨some (xs.flatten ++ data ++ R.drop v.elem_size), v.len + 1, c, v.elem_size,
    v.allocator_set⟩, (v.allocator_set.realloc v.ptr (c * v.elem_size) h).2, ?_, ?_,
    rfl, rfl, hc4⟩
  · simp only [cvec2_push, cvec2_grow, hadd, hc, hmul, hb, hidx, hbe2, hcopy]
  · refine ⟨R.drop v.elem_size, ?_, ?_, ?_, ?_⟩
    · simp [List.flatten_append]
    · have e := congrArg List.length hbe2
      rw [hbl] at e
      simp only [List.flatten_append, List.flatten_cons, List.flatten_nil, List.append_nil,
        List.length_append, List.length_take, List.length_drop] at e ⊢
      omega
    · simp [hl]
    · intro x hx
      rcases List.mem_append.mp hx with hx | hx
      · exact hxs x hx
      · simp at hx; rw [hx]; exact hd

theorem push_all_spec {H : Type} (szt fuel : Nat) (hfuel : 2 ≤ fuel) (D m : Nat) (hD : 1 ≤ D)
    (vs : List (List UInt8)) :
    ∀ (v : cvec2_t H) (xs : List (List UInt8)) (h : H), AllocOk v.allocator_set → Stores v xs →
      0 < v.elem_size → (∀ d ∈ vs, d.length = v.elem_size) →
      (∃ j, j ≤ m ∧ v.cap = D * 2 ^ j) → v.len + vs.length ≤ D * 2 ^ m →
      D * 2 ^ m * v.elem_size < SIZE_MOD szt →
      ∃ w h1, push_all szt fuel v vs h = .ok (w, h1) ∧ Stores w (xs ++ vs) ∧
        w.elem_size = v.elem_size := by
  induction vs with
  | nil =>
    intro v xs h _ hst _ _ _ _ _
    exact ⟨v, h, rfl, by simpa using hst, rfl⟩
  | cons d rest ih =>
    intro v xs h hok hst hes hvs hform htot hfit
    obtain ⟨j, hjm, hj⟩ := hform
    have hpow : ∀ i, 1 ≤ 2 ^ i := fun i => Nat.one_le_two_pow
    have hcap : 1 ≤ v.cap := by
      rw [hj]; exact Nat.mul_le_mul hD (hpow j)
    have hB1 : v.cap ≤ D * 2 ^ m := by
      rw [hj]; exact Nat.mul_le_mul_left _ (Nat.pow_le_pow_right (by omega) hjm)
    have hstep : v.cap < v.len + 1 → j < m := by
      intro hc
      by_contra hnot
      have hjeq : j = m := by omega
      simp only [List.length_cons] at htot
      rw [hj, hjeq] at hc
      omega
    have hdouble : ∀ i, D * 2 ^ (i + 1) = 2 * (D * 2 ^ i) := fun i => by ring
    have hB2 : v.cap < v.len + 1 → 2 * v.cap ≤ D * 2 ^ m := by
      intro hc
      have hjlt := hstep hc
      rw [hj, ← hdouble]
      exact Nat.mul_le_mul_left _ (Nat.pow_le_pow_right (by omega) (by omega))
    obtain ⟨w, h1, hpush, hst1, hes1, hal1, hc1⟩ :=
      push_step szt fuel v xs d h (D * 2 ^ m) hok hst hes (hvs d (by simp)) hcap hB1 hB2 hfit
        hfuel
    have hwl : w.len = v.len + 1 := by
      obtain ⟨_, _, _, hl, _⟩ := hst1
      obtain ⟨_, _, _, hl0, _⟩ := hst
      rw [hl, hl0]; simp
    have hform1 : ∃ i, i ≤ m ∧ w.cap = D * 2 ^ i := by
      rcases hc1 with hsame | ⟨hc, hdbl⟩
      · exact ⟨j, hjm, by rw [hsame, hj]⟩
      · exact ⟨j + 1, hstep hc, by rw [hdbl, hj, hdouble]⟩
    obtain ⟨w2, h2, hrest, hst2, hes2⟩ :=
      ih w (xs ++ [d]) h1 (hal1 ▸ hok) hst1 (hes1 ▸ hes)
        (fun e he => by rw [hes1]; exact hvs e (by simp [he])) hform1
        (by rw [hwl]; simp only [List.length_cons] at htot; omega) (by rw [hes1]; exact hfit)
    refine ⟨w2, h2, ?_, by simpa using hst2, by rw [hes2, hes1]⟩
    simp only [push_all, hpush, hrest]

theorem stores_get {H : Type} (v : cvec2_t H) (xs : List (List UInt8)) (hst : Stores v xs)
    (i : Nat) (hi : i < xs.length) : CVEC2_GET v i = .ok (xs[i]) := by
  obtain ⟨rest, hp, hlen, hl, hxs⟩ := hst
  have hfl := length_flatten_uniform v.elem_size xs hxs
  have hb : i * v.elem_size + v.elem_size ≤ (xs.flatten ++ rest).length := by
    rw [List.length_append, hfl]
    have : (i + 1) * v.elem_size ≤ xs.length * v.elem_size := Nat.mul_le_mul_right _ hi
    have e : (i + 1) * v.elem_size = i * v.elem_size + v.elem_size := by ring
    omega
  simp only [CVEC2_GET, hp, hb, if_true, slice_flatten v.elem_size xs hxs i rest hi]

/-- C1 (amended): for every `elem_size > 0` and every sequence `vs` of `n` elements of
`elem_size` bytes such that some doubling `CVEC2_DEFAULT_CAP * 2^m` of the initial capacity
has room for the `n` elements and a byte size `CVEC2_DEFAULT_CAP * 2^m * elem_size` that
`size_t` can hold, pushing the elements of `vs` in order onto the vector returned by
`cvec2_init_default` succeeds, and the vector ends with `len = n` and with `CVEC2_GET` at
every index `i < n` equal to the `i`-th pushed element. -/
theorem push_sequence_get (szt fuel elem_size : Nat) (vs : List (List UInt8)) (h : List alloc_call)
    (m : Nat) (hes : 0 < elem_size) (hvs : ∀ v ∈ vs, v.length = elem_size)
    (hroom : vs.length ≤ CVEC2_DEFAULT_CAP szt * 2 ^ m)
    (hfit : CVEC2_DEFAULT_CAP szt * 2 ^ m * elem_size < SIZE_MOD szt)
    (hfuel : 2 ≤ fuel) :
    ∃ w h1, push_all szt fuel (cvec2_init_default szt elem_size h).1 vs
        (cvec2_init_default szt elem_size h).2 = .ok (w, h1) ∧
      w.len = vs.length ∧ ∀ (i : Nat) (hi : i < vs.length), CVEC2_GET w i = .ok (vs[i]) := by
  rcases Nat.eq_zero_or_pos (CVEC2_DEFAULT_CAP szt) with h0 | hD
  · have hnil : vs = [] := by
      rw [h0, Nat.zero_mul] at hroom
      exact List.length_eq_zero.mp (Nat.le_zero.mp hroom)
    subst hnil
    exact ⟨_, _, rfl, rfl, fun i hi => by simp at hi⟩
  have hcapM : CVEC2_DEFAULT_CAP szt * elem_size < SIZE_MOD szt := by
    refine lt_of_le_of_lt (Nat.mul_le_mul_right _ ?_) hfit
    exact Nat.le_mul_of_pos_right _ (by positivity)
  have hst0 : Stores (cvec2_init_default szt elem_size h).1 [] := by
    refine ⟨List.replicate (CVEC2_DEFAULT_CAP szt * elem_size) 0xAA, ?_, ?_, rfl, by simp⟩
    · simp [cvec2_init_default, cvec2_SG_default_allocator_set, size_mul_eq hcapM]
    · simp [cvec2_init_default]
  obtain ⟨w, h1, hrun, hst, _⟩ :=
    push_all_spec szt fuel hfuel (CVEC2_DEFAULT_CAP szt) m hD vs
      (cvec2_init_default szt elem_size h).1 [] _ default_allocator_ok hst0 hes hvs
      ⟨0, Nat.zero_le _, by simp [cvec2_init_default]⟩
      (by simpa [cvec2_init_default] using hroom) hfit
  refine ⟨w, h1, hrun, ?_, ?_⟩
  · obtain ⟨_, _, _, hl, _⟩ := hst
    simpa using hl
  · intro i hi
    have := stores_get w ([] ++ vs) hst i (by simpa using hi)
    simpa using this

theorem push_sequence_get_witness :
    ∃ w h1, push_all 8 2 (cvec2_init_default 8 4 []).1 [int_bytes 4]
        (cvec2_init_default 8 4 []).2 = .ok (w, h1) ∧
      w.len = [int_bytes 4].length ∧
      ∀ (i : Nat) (hi : i < [int_bytes 4].length), CVEC2_GET w i = .ok ([int_bytes 4][i]) :=
  push_sequence_get 8 2 4 [int_bytes 4] [] 0 (by decide) (by simp [int_bytes])
    (by decide) (by decide) (by decide)

/-- C1 (counterexample): with `sizeof(size_t) = 4` and `elem_size = 2^27`, the byte size
`CVEC2_DEFAULT_CAP * elem_size = 2^32` of the initial buffer wraps around to `0`, and the
first `cvec2_push` on the vector returned by `cvec2_init_default` writes outside the
buffer. -/
theorem push_with_wrapped_buffer_size :
    (push_all 4 2 (cvec2_init_default 4 (2 ^ 27) []).1 [List.replicate (2 ^ 27) 0]
      (cvec2_init_default 4 (2 ^ 27) []).2).map (fun s => s.1.len)
        = .error Fault.out_of_bounds := by
  decide

/-- C2: the scenario of the repository's own `insert` test.  After `push(0)`, `push(2)`
and `insert(1, at = 1)` on a vector of 4-byte `int`s, `len` is 3 and index 1 holds 1, but
index 2 holds 0: the element 2 that was at index 1 has not been moved to index 2. -/
theorem insert_in_middle_loses_shifted_int :
    (int_vector [0, 2] >>= fun s => cvec2_insert 8 2 s.1 (int_bytes 1) 1 s.2 >>= fun t =>
      snapshot t.1) = .ok (3, [int_bytes 0, int_bytes 1, int_bytes 0]) := by
  decide

/-- C3: `remove(at = 0)` on the vector `[0, 1, 2]` of 4-byte `int`s leaves `len = 2` but
the elements `[0x01000000, 0x02000000]` instead of `[1, 2]`: every element was shifted
left by one byte, not by one element. -/
theorem remove_shifts_by_one_byte :
    (int_vector [0, 1, 2] >>= fun s => cvec2_remove 8 s.1 0 >>= fun t => snapshot t)
      = .ok (2, [[0, 0, 0, 1], [0, 0, 0, 2]]) := by
  decide

/-- C4: `insert(1, at = 0)` followed by `remove(at = 0)` on the vector `[3, 2]` of 4-byte
`int`s yields `[0, 0]`, not the original `[3, 2]`. -/
theorem insert_then_remove_not_restored :
    (int_vector [3, 2] >>= fun s => cvec2_insert 8 2 s.1 (int_bytes 1) 0 s.2 >>= fun t =>
      cvec2_remove 8 t.1 0 >>= fun u => snapshot u) = .ok (2, [int_bytes 0, int_bytes 0]) := by
  decide

/-- C5: `push(7)` followed by `pop(into)` on the empty vector of 4-byte `int`s restores
`len = 0`, but `into` receives the four bytes that start at byte index
`elem_size * len - 1 = 3`: the last byte of the pushed element and three bytes of the
next slot, not the bytes `07 00 00 00` of the pushed element. -/
theorem push_then_pop_returns_other_bytes :
    (int_vector [] >>= fun s => cvec2_push 8 2 s.1 (int_bytes 7) s.2 >>= fun t =>
      cvec2_pop 8 t.1 [0, 0, 0, 0] >>= fun u => pure (u.1.len, u.2))
      = .ok (0, [0, 0xAA, 0xAA, 0xAA]) := by
  decide

/-- C6: `insert_fast(1, at = 0)` on the vector `[5, 2]` of 4-byte `int`s leaves `len = 2`
and the elements `[1, 5]`: `len` is not incremented, and the displaced element 5 was copied
to the byte index `len = 2`, over the element 2, which is lost. -/
theorem insert_fast_keeps_len_and_loses_element :
    (int_vector [5, 2] >>= fun s => cvec2_insert_fast 8 2 s.1 (int_bytes 1) 0 s.2 >>= fun t =>
      snapshot t.1) = .ok (2, [int_bytes 1, int_bytes 5]) := by
  decide

/-- C7: `remove_fast(at = 0)` on the vector `[0, 1, 2]` of 4-byte `int`s leaves `len = 2`,
but index 0 receives the four bytes that start at byte index `elem_size * len - 1 = 11`
(the last byte of the last element and three bytes of the next slot), not the last
element 2. -/
theorem remove_fast_copies_from_wrong_offset :
    (int_vector [0, 1, 2] >>= fun s => cvec2_remove_fast 8 s.1 0 >>= fun t => snapshot t)
      = .ok (2, [[0, 0xAA, 0xAA, 0xAA], int_bytes 1]) := by
  decide

theorem size_sub_zero_one (szt : Nat) : size_sub szt 0 1 = SIZE_MOD szt - 1 := by
  have hp := SIZE_MOD_pos szt
  unfold size_sub
  rcases Nat.lt_or_ge 1 (SIZE_MOD szt) with h | h
  · rw [Nat.mod_eq_of_lt h, Nat.zero_add, Nat.mod_eq_of_lt (by omega)]
  · have : SIZE_MOD szt = 1 := by omega
    simp [this]

theorem size_sub_one {szt a : Nat} (h1 : 1 ≤ a) (h2 : a < SIZE_MOD szt) :
    size_sub szt a 1 = a - 1 := by
  unfold size_sub
  have hM : 1 < SIZE_MOD szt := by omega
  rw [Nat.mod_eq_of_lt hM]
  have e : a + (SIZE_MOD szt - 1) = (a - 1) + SIZE_MOD szt := by omega
  rw [e, Nat.add_mod_right, Nat.mod_eq_of_lt (by omega)]

theorem memcpy_within_load_fault (p : Option (List UInt8)) (t f n : Nat) (e : Fault)
    (hl : load p f = .error e) : cvec2_memcpy_within p t f (n + 1) = .error e := by
  simp only [cvec2_memcpy_within, hl]

theorem memcpy_load_fault (dst frm : Option (List UInt8)) (t f n : Nat) (e : Fault)
    (hl : load frm f = .error e) : cvec2_memcpy dst t frm f (n + 1) = .error e := by
  simp only [cvec2_memcpy, hl]

theorem load_past_end (p : Option (List UInt8)) (i : Nat)
    (hbuf : ∀ b, p = some b → b.length ≤ i) :
    load p i = .error (access_fault p) := by
  cases p with
  | none => rfl
  | some b =>
    have := hbuf b rfl
    simp only [load, List.get?_eq_getElem?, List.getElem?_eq_none this, access_fault]

theorem memcpy_within_frame :
    ∀ (n : Nat) (p q : Option (List UInt8)) (t f : Nat),
      cvec2_memcpy_within p t f n = .ok q →
      (q.getD []).length = (p.getD []).length ∧ q.isSome = p.isSome ∧
      ∀ i, (i < t ∨ t + n ≤ i) → (q.getD [])[i]? = (p.getD [])[i]? := by
  intro n
  induction n with
  | zero =>
    intro p q t f hq
    simp only [cvec2_memcpy_within, Except.ok.injEq] at hq
    subst hq
    exact ⟨rfl, rfl, fun _ _ => rfl⟩
  | succ n ih =>
    intro p q t f hq
    unfold cvec2_memcpy_within at hq
    cases hl : load p f with
    | error e => rw [hl] at hq; cases hq
    | ok x =>
      rw [hl] at hq
      cases p with
      | none => simp [load] at hl
      | some b =>
        by_cases ht : t < b.length
        · simp only [store, ht, if_true] at hq
          obtain ⟨h1, h2, h3⟩ := ih _ q (t + 1) (f + 1) hq
          refine ⟨by simpa using h1, by simpa using h2, fun i hi => ?_⟩
          have hne : t ≠ i := by omega
          have := h3 i (by omega)
          simpa [List.getElem?_set_ne hne] using this
        · simp only [store, ht, if_false] at hq
          cases hq

theorem memcpy_within_total :
    ∀ (n : Nat) (b : List UInt8) (t f : Nat), f + n ≤ b.length → t + n ≤ b.length →
      ∃ c, cvec2_memcpy_within (some b) t f n = .ok (some c) := by
  intro n
  induction n with
  | zero => intro b t f _ _; exact ⟨b, rfl⟩
  | succ n ih =>
    intro b t f hf ht
    have hfl : f < b.length := by omega
    have htl : t < b.length := by omega
    have hl : load (some b) f = .ok (b[f]) := by
      simp only [load, List.get?_eq_getElem?, List.getElem?_eq_getElem hfl]
    obtain ⟨c, hc⟩ := ih (b.set t (b[f])) (t + 1) (f + 1) (by rw [List.length_set]; omega)
      (by rw [List.length_set]; omega)
    exact ⟨c, by simp only [cvec2_memcpy_within, hl, store, htl, if_true, hc]⟩

theorem get_of_frame {H : Type} (v w : cvec2_t H) (i bound : Nat)
    (hes : w.elem_size = v.elem_size)
    (hlen : (w.ptr.getD []).length = (v.ptr.getD []).length)
    (hsome : w.ptr.isSome = v.ptr.isSome)
    (hfr : ∀ j, j < bound → (w.ptr.getD [])[j]? = (v.ptr.getD [])[j]?)
    (hi : i * v.elem_size + v.elem_size ≤ bound) : CVEC2_GET w i = CVEC2_GET v i := by
  cases hv : v.ptr with
  | none =>
    cases hw : w.ptr with
    | none => simp only [CVEC2_GET, hv, hw]
    | some c => rw [hv, hw] at hsome; simp at hsome
  | some b =>
    cases hw : w.ptr with
    | none => rw [hv, hw] at hsome; simp at hsome
    | some c =>
      rw [hv, hw] at hlen hfr
      simp only [Option.getD_some] at hlen hfr
      simp only [CVEC2_GET, hv, hw, hes, hlen]
      by_cases hb : i * v.elem_size + v.elem_size ≤ b.length
      · simp only [hb, if_true]
        congr 1
        apply List.ext_getElem?
        intro j
        simp only [List.getElem?_take, List.getElem?_drop]
        by_cases hj : j < v.elem_size
        · simp only [hj, if_true]
          exact hfr _ (by omega)
        · simp only [hj, if_false]
      · simp only [hb, if_false]

theorem ops_on_empty {H : Type} (szt : Nat) (v : cvec2_t H) (whence : Nat)
    (into : List UInt8) (hlen : v.len = 0) :
    cvec2_remove szt v whence = .ok { v with len := SIZE_MOD szt - 1 } ∧
    (0 < v.elem_size → (∀ b, v.ptr = some b → b.length < SIZE_MOD szt) →
      cvec2_pop szt v into = .error (access_fault v.ptr) ∧
      cvec2_remove_fast szt v whence = .error (access_fault v.ptr)) ∧
    (v.elem_size = 0 →
      cvec2_pop szt v into = .ok ({ v with len := SIZE_MOD szt - 1 }, into) ∧
      cvec2_remove_fast szt v whence = .ok { v with len := SIZE_MOD szt - 1 }) := by
  have hoff : size_sub szt (size_mul szt v.elem_size v.len) 1 = SIZE_MOD szt - 1 := by
    rw [hlen]; simp only [size_mul, Nat.mul_zero, Nat.zero_mod]; exact size_sub_zero_one szt
  have hlen1 : size_sub szt v.len 1 = SIZE_MOD szt - 1 := by
    rw [hlen]; exact size_sub_zero_one szt
  refine ⟨?_, fun hes hbuf => ?_, fun hes0 => ?_⟩
  · simp only [cvec2_remove, hlen, Nat.zero_sub, cvec2_remove_loop, size_sub_zero_one]
  · obtain ⟨n, hn⟩ : ∃ n, v.elem_size = n + 1 := ⟨v.elem_size - 1, by omega⟩
    have hload := load_past_end v.ptr (SIZE_MOD szt - 1)
      (fun b hb => by have := hbuf b hb; omega)
    constructor
    · simp only [cvec2_pop, hoff]
      rw [hn, memcpy_load_fault _ _ _ _ _ _ hload]
    · simp only [cvec2_remove_fast, hoff]
      rw [hn, memcpy_within_load_fault _ _ _ _ _ hload]
  · constructor
    · simp only [cvec2_pop, hes0, cvec2_memcpy, hlen1, Option.getD_some]
    · simp only [cvec2_remove_fast, hes0, cvec2_memcpy_within, hlen1]

/-- C8 (amended): the code has no `Underflow` error and no test of `len`.  On every vector
with `len = 0`, `cvec2_remove` copies nothing and returns with `ptr`, `cap` and `elem_size`
unchanged and `len` wrapped around to `SIZE_MAX`; `cvec2_pop` and `cvec2_remove_fast`,
when `elem_size > 0` and the buffer has at most `SIZE_MAX` bytes, read a byte outside the
buffer (or through the null pointer) before `len` is decremented, and when `elem_size = 0`
they copy nothing and return with `len` wrapped around to `SIZE_MAX` as well. -/
theorem empty_vector_unchecked {H : Type} (szt : Nat) (v : cvec2_t H) (whence : Nat)
    (into : List UInt8) (hlen : v.len = 0) :
    cvec2_remove szt v whence = .ok { v with len := SIZE_MOD szt - 1 } ∧
    (0 < v.elem_size → (∀ b, v.ptr = some b → b.length < SIZE_MOD szt) →
      cvec2_pop szt v into = .error (access_fault v.ptr) ∧
      cvec2_remove_fast szt v whence = .error (access_fault v.ptr)) ∧
    (v.elem_size = 0 →
      cvec2_pop szt v into = .ok ({ v with len := SIZE_MOD szt - 1 }, into) ∧
      cvec2_remove_fast szt v whence = .ok { v with len := SIZE_MOD szt - 1 }) :=
  ops_on_empty szt v whence into hlen

theorem empty_vector_unchecked_witness :
    (cvec2_remove 8 (cvec2_init_default 8 4 []).1 0
      = .ok { (cvec2_init_default 8 4 []).1 with len := SIZE_MOD 8 - 1 } ∧
    cvec2_pop 8 (cvec2_init_default 8 4 []).1 [0, 0, 0, 0] = .error Fault.out_of_bounds ∧
    cvec2_remove_fast 8 (cvec2_init_default 8 4 []).1 0 = .error Fault.out_of_bounds) ∧
    (cvec2_remove 8 (cvec2_destroy three_ints []).1 0
      = .ok { (cvec2_destroy three_ints []).1 with len := SIZE_MOD 8 - 1 } ∧
    cvec2_pop 8 (cvec2_destroy three_ints []).1 [0, 0, 0, 0]
      = .ok ({ (cvec2_destroy three_ints []).1 with len := SIZE_MOD 8 - 1 }, [0, 0, 0, 0]) ∧
    cvec2_remove_fast 8 (cvec2_destroy three_ints []).1 0
      = .ok { (cvec2_destroy three_ints []).1 with len := SIZE_MOD 8 - 1 }) :=
  have fresh := empty_vector_unchecked 8 (cvec2_init_default 8 4 []).1 0 [0, 0, 0, 0] rfl
  have fresh2 := fresh.2.1 (by decide)
    (by
      intro b hb
      have hb2 : b = List.replicate 256 0xAA := by
        have : (cvec2_init_default 8 4 []).1.ptr = some (List.replicate 256 0xAA) := by decide
        rw [this] at hb
        exact (Option.some.inj hb).symm
      rw [hb2]
      decide)
  have gone := empty_vector_unchecked 8 (cvec2_destroy three_ints []).1 0 [0, 0, 0, 0]
    (by decide)
  have gone2 := gone.2.2 (by decide)
  ⟨⟨fresh.1, fresh2.1, fresh2.2⟩, ⟨gone.1, gone2.1, gone2.2⟩⟩

/-- C8 (counterexample): `cvec2_remove` on the empty vector returned by
`cvec2_init_default` does not fail: it returns with `len = 2^64 - 1`. -/
theorem remove_on_empty_wraps_len :
    (cvec2_remove 8 (cvec2_init_default 8 4 []).1 0).map (fun w => w.len) = .ok (2 ^ 64 - 1) := by
  decide

theorem slice_of_common_start (pre s1 s2 : List UInt8) (o n : Nat) (h : o + n ≤ pre.length) :
    ((pre ++ s1).drop o).take n = ((pre ++ s2).drop o).take n := by
  rw [List.drop_append_of_le_length (by omega), List.drop_append_of_le_length (by omega),
    List.take_append_of_le_length (by rw [List.length_drop]; omega),
    List.take_append_of_le_length (by rw [List.length_drop]; omega)]

theorem insert_past_len {H : Type} (szt fuel : Nat) (v : cvec2_t H) (xs : List (List UInt8))
    (frm : List UInt8) (whence : Nat) (h : H) (hok : AllocOk v.allocator_set) (hst : Stores v xs)
    (hes : 0 < v.elem_size) (hd : frm.length = v.elem_size) (hlt : v.len < whence)
    (hwc : whence < v.cap) (hfit : v.cap * v.elem_size < SIZE_MOD szt) (hfuel : 1 ≤ fuel) :
    ∃ w h1, cvec2_insert szt fuel v frm whence h = .ok (w, h1) ∧ w.len = v.len + 1 ∧
      (∀ (i : Nat) (hi : i < xs.length), CVEC2_GET w i = .ok (xs[i])) ∧
      CVEC2_GET w whence = .ok frm := by
  have hget := stores_get v xs hst
  obtain ⟨rest, hp, hlen, hl, hxs⟩ := hst
  have hcM : v.cap < SIZE_MOD szt := lt_of_le_of_lt (Nat.le_mul_of_pos_right _ hes) hfit
  have hadd : size_add szt v.len 1 = v.len + 1 := size_add_eq (by omega)
  have hloop := grow_loop_ge szt fuel v.cap (v.len + 1) (by omega) hfuel
  have hmul : size_mul szt v.cap v.elem_size = v.cap * v.elem_size := size_mul_eq hfit
  obtain ⟨b, hb, hbl, hbt⟩ := hok.2 v.ptr (v.cap * v.elem_size) h
  rw [hp] at hbt
  simp only [Option.getD_some] at hbt
  rw [hlen, List.take_of_length_le (le_of_eq hbl), List.take_of_length_le (le_of_eq hlen)] at hbt
  subst hbt
  have hwe : whence * v.elem_size + v.elem_size ≤ v.cap * v.elem_size := by
    have : (whence + 1) * v.elem_size ≤ v.cap * v.elem_size := Nat.mul_le_mul_right _ hwc
    have e : (whence + 1) * v.elem_size = whence * v.elem_size + v.elem_size := by ring
    omega
  have hidx : size_mul szt v.elem_size whence = whence * v.elem_size := by
    have h3 : v.elem_size * whence < SIZE_MOD szt := by rw [Nat.mul_comm]; omega
    rw [size_mul_eq h3, Nat.mul_comm]
  generalize hB : xs.flatten ++ rest = B at hp hlen hb hbl
  have hpre : (B.take (whence * v.elem_size)).length = whence * v.elem_size := by
    rw [List.length_take]; omega
  have hsplit : B = B.take (whence * v.elem_size)
      ++ (B.drop (whence * v.elem_size)).take v.elem_size
      ++ (B.drop (whence * v.elem_size)).drop v.elem_size := by
    rw [List.append_assoc, List.take_append_drop, List.take_append_drop]
  have hcopy := memcpy_append frm (B.take (whence * v.elem_size))
    ((B.drop (whence * v.elem_size)).take v.elem_size)
    ((B.drop (whence * v.elem_size)).drop v.elem_size) [] []
    (by rw [List.length_take, List.length_drop, hd]; omega)
  simp only [List.nil_append, List.append_nil, List.length_nil, hd, hpre, ← hsplit] at hcopy
  generalize hP : B.take (whence * v.elem_size) = P at hcopy hpre hsplit
  generalize hQ : (B.drop (whence * v.elem_size)).drop v.elem_size = Q at hcopy hsplit
  have hnl : (P ++ frm ++ Q).length = v.cap * v.elem_size := by
    have e := congrArg List.length hsplit
    simp only [List.length_append, List.length_take, List.length_drop] at e ⊢
    omega
  refine ⟨⟨some (P ++ frm ++ Q), v.len + 1, v.cap, v.elem_size, v.allocator_set⟩,
    (v.allocator_set.realloc v.ptr (v.cap * v.elem_size) h).2, ?_, rfl, ?_, ?_⟩
  · simp only [cvec2_insert, cvec2_grow, hadd, hloop, hmul, hb, Nat.sub_eq_zero_of_le (le_of_lt hlt),
      cvec2_insert_loop, hidx, hcopy]
  · intro i hi
    have hi2 : i * v.elem_size + v.elem_size ≤ P.length := by
      have : (i + 1) * v.elem_size ≤ whence * v.elem_size :=
        Nat.mul_le_mul_right _ (by rw [← hl] at hi; omega)
      have e : (i + 1) * v.elem_size = i * v.elem_size + v.elem_size := by ring
      omega
    have hold := hget i hi
    have hb1 : i * v.elem_size + v.elem_size ≤ B.length := by omega
    simp only [CVEC2_GET, hp, hb1, if_true] at hold
    have hb2 : i * v.elem_size + v.elem_size ≤ (P ++ frm ++ Q).length := by omega
    simp only [CVEC2_GET, hb2, if_true]
    rw [← hold, List.append_assoc]
    conv_rhs => rw [hsplit, List.append_assoc]
    exact congrArg _ (slice_of_common_start P _ _ _ _ hi2)
  · have hb2 : whence * v.elem_size + v.elem_size ≤ (P ++ frm ++ Q).length := by omega
    simp only [CVEC2_GET, hb2, if_true]
    have e : whence * v.elem_size = P.length + 0 := by omega
    rw [List.append_assoc, e, List.drop_append, List.drop_zero, ← hd, List.take_left]

/-- C9 (amended): the code has no `IndexOutOfRange` error and never compares the index
with `len`.  `cvec2_remove` with `1 ≤ len ≤ at` (`len` a `size_t` value) copies nothing and
returns with `ptr` (so the stored elements), `cap` and `elem_size` unchanged and `len`
decremented (the last element is dropped).  `cvec2_remove_fast` with `1 ≤ len ≤ at` and `elem_size * at` a
`size_t` value, whenever it returns, has decremented `len` and left `cap`, `elem_size` and
the elements at all indices below the old `len` unchanged; and it does return, with the
elements `xs` minus the last one, on a vector that stores `xs` in a buffer of
`cap * elem_size ≤ SIZE_MAX` bytes when `at < cap`.  `cvec2_insert` with `at > len`, on
every vector, shifts nothing: it is `cvec2_grow`, the copy of the element to the byte index
`elem_size * at`, and the increment of `len`; on a vector that stores the elements `xs` in
a buffer of `cap * elem_size ≤ SIZE_MAX` bytes, with an allocator that never fails,
`cvec2_insert` with `len < at < cap` returns with `len` incremented, the elements at the
indices below the old `len` unchanged and the new element at index `at`. -/
theorem out_of_range_index_unchecked {H : Type} (szt fuel : Nat) (v : cvec2_t H)
    (frm : List UInt8) (whence : Nat) (h : H) :
    (1 ≤ v.len → v.len < SIZE_MOD szt → v.len ≤ whence →
      cvec2_remove szt v whence = .ok { v with len := v.len - 1 }) ∧
    (1 ≤ v.len → v.len < SIZE_MOD szt → v.len ≤ whence →
      v.elem_size * whence < SIZE_MOD szt →
      ∀ w, cvec2_remove_fast szt v whence = .ok w →
        w.len = v.len - 1 ∧ w.cap = v.cap ∧ w.elem_size = v.elem_size ∧
        ∀ i, i < v.len → CVEC2_GET w i = CVEC2_GET v i) ∧
    (∀ xs, Stores v xs → 0 < v.elem_size → 1 ≤ v.len → v.len ≤ whence → whence < v.cap →
      v.cap * v.elem_size < SIZE_MOD szt →
      ∃ w, cvec2_remove_fast szt v whence = .ok w ∧ w.len = v.len - 1 ∧ w.cap = v.cap ∧
        w.elem_size = v.elem_size ∧
        ∀ (i : Nat) (hi : i < xs.length), CVEC2_GET w i = .ok (xs[i])) ∧
    (v.len < whence →
      cvec2_insert szt fuel v frm whence h =
        (cvec2_grow szt fuel v (size_add szt v.len 1) h >>= fun s =>
          cvec2_memcpy s.1.ptr (size_mul szt s.1.elem_size whence) (some frm) 0 s.1.elem_size
            >>= fun q => pure ({ s.1 with ptr := q, len := size_add szt s.1.len 1 }, s.2))) ∧
    (∀ xs, AllocOk v.allocator_set → Stores v xs → 0 < v.elem_size →
      frm.length = v.elem_size → v.len < whence → whence < v.cap →
      v.cap * v.elem_size < SIZE_MOD szt → 1 ≤ fuel →
      ∃ w h1, cvec2_insert szt fuel v frm whence h = .ok (w, h1) ∧ w.len = v.len + 1 ∧
        (∀ (i : Nat) (hi : i < xs.length), CVEC2_GET w i = .ok (xs[i])) ∧
        CVEC2_GET w whence = .ok frm) := by
  have hfast : 1 ≤ v.len → v.len < SIZE_MOD szt → v.len ≤ whence →
      v.elem_size * whence < SIZE_MOD szt →
      ∀ w, cvec2_remove_fast szt v whence = .ok w →
        w.len = v.len - 1 ∧ w.cap = v.cap ∧ w.elem_size = v.elem_size ∧
        ∀ i, i < v.len → CVEC2_GET w i = CVEC2_GET v i := by
    intro hlen hM hat hfit w hw
    unfold cvec2_remove_fast at hw
    cases hm : cvec2_memcpy_within v.ptr (size_mul szt v.elem_size whence)
        (size_sub szt (size_mul szt v.elem_size v.len) 1) v.elem_size with
    | error e => rw [hm] at hw; cases hw
    | ok q =>
      rw [hm] at hw
      cases hw
      obtain ⟨h1, h2, h3⟩ := memcpy_within_frame _ _ _ _ _ hm
      refine ⟨size_sub_one hlen hM, rfl, rfl, fun i hi => ?_⟩
      refine get_of_frame v _ i (size_mul szt v.elem_size whence) rfl h1 h2
        (fun j hj => h3 j (Or.inl hj)) ?_
      rw [size_mul_eq hfit]
      have e1 : (i + 1) * v.elem_size ≤ whence * v.elem_size :=
        Nat.mul_le_mul_right _ (by omega)
      have e2 : (i + 1) * v.elem_size = i * v.elem_size + v.elem_size := by ring
      have e3 : v.elem_size * whence = whence * v.elem_size := Nat.mul_comm _ _
      omega
  refine ⟨?_, hfast, ?_, ?_, ?_⟩
  · intro hlen hM hat
    simp only [cvec2_remove, Nat.sub_eq_zero_of_le hat, cvec2_remove_loop, size_sub_one hlen hM]
  · intro xs hst hes hlen hat hwc hfit
    have hget := stores_get v xs hst
    obtain ⟨rest, hp, hbl, hl, hxs⟩ := hst
    have hcM : v.cap < SIZE_MOD szt := lt_of_le_of_lt (Nat.le_mul_of_pos_right _ hes) hfit
    have ew : whence * v.elem_size + v.elem_size ≤ v.cap * v.elem_size := by
      have : (whence + 1) * v.elem_size ≤ v.cap * v.elem_size := Nat.mul_le_mul_right _ hwc
      have e : (whence + 1) * v.elem_size = whence * v.elem_size + v.elem_size := by ring
      omega
    have el : v.len * v.elem_size + v.elem_size ≤ v.cap * v.elem_size := by
      have : (v.len + 1) * v.elem_size ≤ v.cap * v.elem_size :=
        Nat.mul_le_mul_right _ (by omega)
      have e : (v.len + 1) * v.elem_size = v.len * v.elem_size + v.elem_size := by ring
      omega
    have el1 : 1 ≤ v.len * v.elem_size := Nat.mul_pos (by omega) hes
    have hdst : size_mul szt v.elem_size whence = whence * v.elem_size := by
      have h3 : v.elem_size * whence < SIZE_MOD szt := by rw [Nat.mul_comm]; omega
      rw [size_mul_eq h3, Nat.mul_comm]
    have hsrc : size_sub szt (size_mul szt v.elem_size v.len) 1 = v.len * v.elem_size - 1 := by
      have h3 : v.elem_size * v.len < SIZE_MOD szt := by rw [Nat.mul_comm]; omega
      rw [size_mul_eq h3, Nat.mul_comm, size_sub_one el1 (by omega)]
    obtain ⟨c, hc⟩ := memcpy_within_total v.elem_size (xs.flatten ++ rest)
      (whence * v.elem_size) (v.len * v.elem_size - 1) (by omega) (by omega)
    have hrun : cvec2_remove_fast szt v whence
        = .ok { v with ptr := some c, len := size_sub szt v.len 1 } := by
      simp only [cvec2_remove_fast, hdst, hsrc, hp, hc]
    obtain ⟨g1, g2, g3, g4⟩ := hfast hlen (by omega) hat
      (by rw [Nat.mul_comm]; omega) _ hrun
    refine ⟨_, hrun, g1, g2, g3, fun i hi => ?_⟩
    rw [g4 i (by omega)]
    exact hget i hi
  · intro hlt
    unfold cvec2_insert
    cases hg : cvec2_grow szt fuel v (size_add szt v.len 1) h with
    | error e => rfl
    | ok s =>
      obtain ⟨w, h1⟩ := s
      have hwl : w.len = v.len := by
        unfold cvec2_grow at hg
        split at hg
        · cases hg
        · cases hg; rfl
      have hz : w.len - whence = 0 := by omega
      simp only [hz, cvec2_insert_loop]
      cases hc : cvec2_memcpy w.ptr (size_mul szt w.elem_size whence) (some frm) 0 w.elem_size with
      | error e => simp [bind, Except.bind, hc]
      | ok q => simp [bind, Except.bind, hc, pure, Except.pure]
  · intro xs hok hst hes hd hlt hwc hfit hfuel
    exact insert_past_len szt fuel v xs frm whence h hok hst hes hd hlt hwc hfit hfuel

theorem out_of_range_index_unchecked_witness :
    cvec2_remove 8 three_ints 7 = .ok { three_ints with len := three_ints.len - 1 } ∧
    (∀ w, cvec2_remove_fast 8 three_ints 7 = .ok w →
      w.len = three_ints.len - 1 ∧ w.cap = three_ints.cap ∧
        w.elem_size = three_ints.elem_size ∧
        ∀ i, i < three_ints.len → CVEC2_GET w i = CVEC2_GET three_ints i) ∧
    (∃ w, cvec2_remove_fast 8 three_ints 7 = .ok w ∧ w.len = three_ints.len - 1 ∧
      w.cap = three_ints.cap ∧ w.elem_size = three_ints.elem_size ∧
      ∀ (i : Nat) (hi : i < [int_bytes 0, int_bytes 1, int_bytes 2].length),
        CVEC2_GET w i = .ok ([int_bytes 0, int_bytes 1, int_bytes 2][i])) ∧
    cvec2_insert 8 2 three_ints (int_bytes 9) 7 [] =
      (cvec2_grow 8 2 three_ints (size_add 8 three_ints.len 1) [] >>= fun s =>
        cvec2_memcpy s.1.ptr (size_mul 8 s.1.elem_size 7) (some (int_bytes 9)) 0 s.1.elem_size
          >>= fun q => pure ({ s.1 with ptr := q, len := size_add 8 s.1.len 1 }, s.2)) ∧
    (∃ w h1, cvec2_insert 8 2 three_ints (int_bytes 9) 7 [] = .ok (w, h1) ∧
      w.len = three_ints.len + 1 ∧
      (∀ (i : Nat) (hi : i < [int_bytes 0, int_bytes 1, int_bytes 2].length),
        CVEC2_GET w i = .ok ([int_bytes 0, int_bytes 1, int_bytes 2][i])) ∧
      CVEC2_GET w 7 = .ok (int_bytes 9)) ∧
    (∃ w h1, cvec2_insert 8 2 (cvec2_init_default 8 4 []).1 (int_bytes 9) 5 [] = .ok (w, h1) ∧
      w.len = (cvec2_init_default 8 4 []).1.len + 1 ∧
      (∀ (i : Nat) (hi : i < ([] : List (List UInt8)).length),
        CVEC2_GET w i = .ok (([] : List (List UInt8))[i])) ∧
      CVEC2_GET w 5 = .ok (int_bytes 9)) :=
  have t := out_of_range_index_unchecked 8 2 three_ints (int_bytes 9) 7 []
  have e := out_of_range_index_unchecked 8 2 (cvec2_init_default 8 4 []).1 (int_bytes 9) 5 []
  have hst : Stores three_ints [int_bytes 0, int_bytes 1, int_bytes 2] :=
    ⟨List.replicate 244 0xAA, by decide, by decide, by decide, by decide⟩
  have hse : Stores (cvec2_init_default 8 4 []).1 [] :=
    ⟨List.replicate 256 0xAA, by decide, by decide, by decide, by decide⟩
  ⟨t.1 (by decide) (by decide) (by decide),
    t.2.1 (by decide) (by decide) (by decide) (by decide),
    t.2.2.1 _ hst (by decide) (by decide) (by decide) (by decide) (by decide),
    t.2.2.2.1 (by decide),
    t.2.2.2.2 _ default_allocator_ok hst (by decide) (by decide) (by decide) (by decide)
      (by decide) (by decide),
    e.2.2.2.2 _ default_allocator_ok hse (by decide) (by decide) (by decide) (by decide)
      (by decide) (by decide)⟩

/-- C9 (counterexample): `cvec2_remove` with the index 7 on the vector `[0, 1, 2]` does not
fail and does not leave the vector unchanged: it returns with `len = 2` and the elements
`[0, 1]`. -/
theorem remove_out_of_range_drops_last :
    (cvec2_remove 8 three_ints 7 >>= fun t => snapshot t) = .ok (2, [int_bytes 0, int_bytes 1]) := by
  decide

theorem grow_loop_spec (szt n : Nat) (hn : 2 * n ≤ SIZE_MOD szt) :
    ∀ (d vcap : Nat), 1 ≤ vcap → n - vcap ≤ d →
      ∃ k, (∀ j, j < k → vcap * 2 ^ j < n) ∧ n ≤ vcap * 2 ^ k ∧
        ∀ fuel, k + 1 ≤ fuel → cvec2_grow_loop szt fuel vcap n = .ok (vcap * 2 ^ k) := by
  intro d
  induction d with
  | zero =>
    intro vcap _ hd
    refine ⟨0, fun j hj => by omega, by simp; omega, fun fuel hf => ?_⟩
    simpa using grow_loop_ge szt fuel vcap n (by omega) (by omega)
  | succ d ih =>
    intro vcap h1 hd
    by_cases hlt : vcap < n
    · have hm : size_mul szt vcap CVEC2_DEFAULT_GROWTH = 2 * vcap := by
        rw [size_mul_eq] <;> simp [CVEC2_DEFAULT_GROWTH] <;> omega
      obtain ⟨k, hk1, hk2, hk3⟩ := ih (2 * vcap) (by omega) (by omega)
      have e : ∀ j, vcap * 2 ^ (j + 1) = 2 * vcap * 2 ^ j := fun j => by ring
      refine ⟨k + 1, ?_, by rw [e]; exact hk2, ?_⟩
      · intro j hj
        cases j with
        | zero => simpa using hlt
        | succ i => rw [e]; exact hk1 i (by omega)
      · intro fuel hf
        cases fuel with
        | zero => omega
        | succ f =>
          simp only [cvec2_grow_loop, hlt, if_true, hm]
          rw [e]; exact hk3 f (by omega)
    · refine ⟨0, fun j hj => by omega, by simp; omega, fun fuel hf => ?_⟩
      simpa using grow_loop_ge szt fuel vcap n (by omega) (by omega)

theorem grow_loop_stuck_at_zero (szt n : Nat) (hn : 0 < n) :
    ∀ fuel, cvec2_grow_loop szt fuel 0 n = .error .out_of_fuel := by
  intro fuel
  induction fuel with
  | zero => rfl
  | succ f ih => simpa [cvec2_grow_loop, hn, size_mul] using ih

theorem grow_loop_wraps (szt n : Nat) (hn : 0 < n) :
    ∀ (k vcap : Nat), vcap < SIZE_MOD szt → (∀ j, j < k → vcap * 2 ^ j % SIZE_MOD szt < n) →
      vcap * 2 ^ k % SIZE_MOD szt = 0 →
      ∀ fuel, cvec2_grow_loop szt fuel vcap n = .error .out_of_fuel := by
  intro k
  induction k with
  | zero =>
    intro vcap hM _ h0 fuel
    have : vcap = 0 := by
      rw [pow_zero, Nat.mul_one, Nat.mod_eq_of_lt hM] at h0; exact h0
    rw [this]; exact grow_loop_stuck_at_zero szt n hn fuel
  | succ k ih =>
    intro vcap hM hlt h0 fuel
    have hv : vcap < n := by
      have := hlt 0 (by omega)
      rwa [pow_zero, Nat.mul_one, Nat.mod_eq_of_lt hM] at this
    have e : ∀ j, size_mul szt vcap CVEC2_DEFAULT_GROWTH * 2 ^ j % SIZE_MOD szt
        = vcap * 2 ^ (j + 1) % SIZE_MOD szt := by
      intro j
      unfold size_mul CVEC2_DEFAULT_GROWTH
      rw [Nat.mod_mul_mod]
      congr 1; ring
    cases fuel with
    | zero => rfl
    | succ f =>
      simp only [cvec2_grow_loop, hv, if_true]
      apply ih
      · exact Nat.mod_lt _ (SIZE_MOD_pos szt)
      · intro j hj; rw [e]; exact hlt (j + 1) (by omega)
      · rw [e]; exact h0

theorem grow_loop_doubles (szt n : Nat) :
    ∀ (k vcap : Nat), (∀ j, j < k → vcap * 2 ^ j < n) → n ≤ vcap * 2 ^ k →
      vcap * 2 ^ k < SIZE_MOD szt →
      ∀ fuel, k + 1 ≤ fuel → cvec2_grow_loop szt fuel vcap n = .ok (vcap * 2 ^ k) := by
  intro k
  induction k with
  | zero =>
    intro vcap _ hle _ fuel hf
    simpa using grow_loop_ge szt fuel vcap n (by simpa using hle) (by omega)
  | succ k ih =>
    intro vcap hlt hle hM fuel hf
    have e : ∀ j, vcap * 2 ^ (j + 1) = 2 * vcap * 2 ^ j := fun j => by ring
    have hv : vcap < n := by simpa using hlt 0 (by omega)
    have h2 : 2 * vcap < SIZE_MOD szt := by
      have : 2 * vcap ≤ 2 * vcap * 2 ^ k := Nat.le_mul_of_pos_right _ (by positivity)
      rw [e] at hM; omega
    have hm : size_mul szt vcap CVEC2_DEFAULT_GROWTH = 2 * vcap := by
      rw [size_mul_eq] <;> simp [CVEC2_DEFAULT_GROWTH] <;> omega
    cases fuel with
    | zero => omega
    | succ f =>
      simp only [cvec2_grow_loop, hv, if_true, hm]
      rw [e]
      exact ih (2 * vcap) (fun j hj => by rw [← e]; exact hlt (j + 1) (by omega))
        (by rw [← e]; exact hle) (by rw [← e]; exact hM) f (by omega)

theorem least_doubling (vcap n m : Nat) (hm : n ≤ vcap * 2 ^ m) :
    ∃ k, k ≤ m ∧ (∀ j, j < k → vcap * 2 ^ j < n) ∧ n ≤ vcap * 2 ^ k := by
  classical
  have hex : ∃ k, n ≤ vcap * 2 ^ k := ⟨m, hm⟩
  refine ⟨Nat.find hex, Nat.find_min' hex hm, fun j hj => ?_, Nat.find_spec hex⟩
  exact Nat.lt_of_not_le (Nat.find_min hex hj)

theorem representable_of_le_half (szt vcap n : Nat) (h1 : 1 ≤ vcap) (hM : vcap < SIZE_MOD szt)
    (hn : 2 * n ≤ SIZE_MOD szt) : ∃ m, n ≤ vcap * 2 ^ m ∧ vcap * 2 ^ m < SIZE_MOD szt := by
  obtain ⟨k, hk2, hk3, _⟩ := grow_loop_spec szt n hn (n - vcap) vcap h1 (le_refl _)
  refine ⟨k, hk3, ?_⟩
  cases k with
  | zero => simpa using hM
  | succ i =>
    have := hk2 i (by omega)
    have e : vcap * 2 ^ (i + 1) = 2 * (vcap * 2 ^ i) := by ring
    omega

/-- C10 (amended): for every vector and every target `n` that some `old_cap * 2^m` below
`2^w` reaches (`w = 8 * sizeof(size_t)`; with `1 ≤ old_cap < 2^w` every `n ≤ 2^(w-1)` is such
a target), `cvec2_grow(n)` returns, with any fuel above the number `k` of doublings, and the
new `cap` is `old_cap * 2^k` for the least `k ≥ 0` with `old_cap * 2^k ≥ n`: it is `≥ n`, it
is never below the old `cap`, it is the old `cap` when that is already `≥ n`, and `len` and
`elem_size` are unchanged. -/
theorem grow_reaches_target {H : Type} (szt : Nat) (v : cvec2_t H) (n : Nat) (h : H) (m : Nat)
    (hm : n ≤ v.cap * 2 ^ m) (hrep : v.cap * 2 ^ m < SIZE_MOD szt) :
    ∃ k, (∀ j, j < k → v.cap * 2 ^ j < n) ∧ n ≤ v.cap * 2 ^ k ∧
      ∀ fuel, k + 1 ≤ fuel → ∃ w h1, cvec2_grow szt fuel v n h = .ok (w, h1) ∧
        w.cap = v.cap * 2 ^ k ∧ n ≤ w.cap ∧ v.cap ≤ w.cap ∧ (n ≤ v.cap → w.cap = v.cap) ∧
        w.len = v.len ∧ w.elem_size = v.elem_size := by
  obtain ⟨k, hkm, hk1, hk2⟩ := least_doubling v.cap n m hm
  have hkM : v.cap * 2 ^ k < SIZE_MOD szt :=
    lt_of_le_of_lt (Nat.mul_le_mul_left _ (Nat.pow_le_pow_right (by omega) hkm)) hrep
  have hk3 := grow_loop_doubles szt n k v.cap hk1 hk2 hkM
  refine ⟨k, hk1, hk2, fun fuel hf => ?_⟩
  refine ⟨⟨(v.allocator_set.realloc v.ptr (size_mul szt (v.cap * 2 ^ k) v.elem_size) h).1, v.len,
    v.cap * 2 ^ k, v.elem_size, v.allocator_set⟩,
    (v.allocator_set.realloc v.ptr (size_mul szt (v.cap * 2 ^ k) v.elem_size) h).2,
    by simp only [cvec2_grow, hk3 fuel hf], rfl, hk2, ?_, ?_, rfl, rfl⟩
  · exact Nat.le_mul_of_pos_right _ (by positivity)
  · intro hle
    have hk0 : k = 0 := by
      by_contra hne
      have := hk1 0 (by omega)
      simp at this; omega
    show v.cap * 2 ^ k = v.cap
    rw [hk0]; simp

theorem grow_reaches_target_witness :
    ∃ k, (∀ j, j < k → three_ints.cap * 2 ^ j < 200) ∧ 200 ≤ three_ints.cap * 2 ^ k ∧
      ∀ fuel, k + 1 ≤ fuel → ∃ w h1, cvec2_grow 8 fuel three_ints 200 [] = .ok (w, h1) ∧
        w.cap = three_ints.cap * 2 ^ k ∧ 200 ≤ w.cap ∧ three_ints.cap ≤ w.cap ∧
        (200 ≤ three_ints.cap → w.cap = three_ints.cap) ∧
        w.len = three_ints.len ∧ w.elem_size = three_ints.elem_size :=
  grow_reaches_target 8 three_ints 200 [] 2 (by decide) (by decide)

/-- C10 (counterexample): with `sizeof(size_t) = 8`, `cvec2_grow` with the target
`2^63 + 1` on the vector returned by `cvec2_init_default` (`cap = 64`) never returns: the
doubling reaches `2^63`, wraps around to `0` and stays there. -/
theorem grow_past_half_range_never_returns :
    ¬ ∃ fuel w h1, cvec2_grow 8 fuel (cvec2_init_default 8 4 []).1 (2 ^ 63 + 1)
        (cvec2_init_default 8 4 []).2 = .ok (w, h1) := by
  rintro ⟨fuel, w, h1, hw⟩
  have hloop : cvec2_grow_loop 8 fuel 64 (2 ^ 63 + 1) = .error .out_of_fuel :=
    grow_loop_wraps 8 (2 ^ 63 + 1) (by decide) 58 64 (by decide) (by decide) (by decide) fuel
  have hcap : (cvec2_init_default 8 4 []).1.cap = 64 := by decide
  simp only [cvec2_grow, hcap, hloop] at hw
  cases hw

/-- C11 (amended): for every vector and every target `n`, `cvec2_reserve(n)` leaves the
vector and the heap unchanged (no call to the allocator) when `cap ≥ n`, and otherwise sets
`cap` to exactly `n` and calls `realloc` once, with the `size_t` product `n * elem_size`,
which is `n * elem_size` reduced modulo `2^w` and so `n * elem_size` itself whenever that
fits in `size_t`; in both cases the new `cap` is `max(old cap, n)`, and `len` and
`elem_size` are unchanged. -/
theorem reserve_spec {H : Type} (szt : Nat) (v : cvec2_t H) (n : Nat) (h : H) :
    (n ≤ v.cap → cvec2_reserve szt v n h = (v, h)) ∧
    (v.cap < n → cvec2_reserve szt v n h =
      ({ v with cap := n,
                ptr := (v.allocator_set.realloc v.ptr (n * v.elem_size % SIZE_MOD szt) h).1 },
        (v.allocator_set.realloc v.ptr (n * v.elem_size % SIZE_MOD szt) h).2)) ∧
    (n * v.elem_size < SIZE_MOD szt → n * v.elem_size % SIZE_MOD szt = n * v.elem_size) ∧
    (cvec2_reserve szt v n h).1.cap = max v.cap n ∧
    (cvec2_reserve szt v n h).1.len = v.len ∧
    (cvec2_reserve szt v n h).1.elem_size = v.elem_size := by
  refine ⟨fun hle => ?_, fun hlt => ?_, fun hfit => Nat.mod_eq_of_lt hfit, ?_, ?_, ?_⟩
  · simp only [cvec2_reserve, ge_iff_le, hle, if_true]
  · simp only [cvec2_reserve, ge_iff_le, Nat.not_le.mpr hlt, if_false, size_mul]
  · by_cases hle : n ≤ v.cap
    · simp only [cvec2_reserve, ge_iff_le, hle, if_true, Nat.max_eq_left hle]
    · simp only [cvec2_reserve, ge_iff_le, hle, if_false]
      exact (Nat.max_eq_right (by omega)).symm
  · by_cases hle : n ≤ v.cap <;> simp only [cvec2_reserve, ge_iff_le, hle, if_true, if_false]
  · by_cases hle : n ≤ v.cap <;> simp only [cvec2_reserve, ge_iff_le, hle, if_true, if_false]

/-- C11 (counterexample): with `sizeof(size_t) = 8`, `cvec2_reserve` with the target `2^62`
on the vector `[0, 1, 2]` of 4-byte `int`s (`cap = 64`) sets `cap = 2^62` and calls `realloc`
with `2^62 * 4 = 2^64`, wrapped around to `0` bytes. -/
theorem reserve_request_wraps :
    (cvec2_reserve 8 three_ints (2 ^ 62) []).1.cap = 2 ^ 62 ∧
    three_ints.elem_size = 4 ∧
    (cvec2_reserve 8 three_ints (2 ^ 62) []).2 = [alloc_call.realloc 0] := by
  decide

/-- C12 (amended): for every vector whose buffer pointer is not null, after
`cvec2_destroy` the pointer is null, `len = cap = 0` (and `elem_size = 0`), and `free` has
been called once, on the old pointer; for every vector whose buffer pointer is null,
`cvec2_destroy` changes nothing and does not call `free`.  Hence `cvec2_destroy` is
idempotent: a second call leaves the vector and the heap as the first call left them. -/
theorem destroy_spec {H : Type} (v : cvec2_t H) (h : H) :
    (∀ b, v.ptr = some b →
      (cvec2_destroy v h).1.ptr = none ∧ (cvec2_destroy v h).1.len = 0 ∧
      (cvec2_destroy v h).1.cap = 0 ∧ (cvec2_destroy v h).1.elem_size = 0 ∧
      (cvec2_destroy v h).2 = v.allocator_set.free (some b) h) ∧
    (v.ptr = none → cvec2_destroy v h = (v, h)) ∧
    cvec2_destroy (cvec2_destroy v h).1 (cvec2_destroy v h).2 = cvec2_destroy v h := by
  refine ⟨fun b hb => ?_, fun hn => ?_, ?_⟩
  · simp only [cvec2_destroy, hb, and_self]
  · simp only [cvec2_destroy, hn]
  · cases hp : v.ptr with
    | none => simp only [cvec2_destroy, hp]
    | some b => simp only [cvec2_destroy, hp]

/-- C12 (counterexample): the vector returned by `cvec2_init_alloc` when the allocator
returns the null pointer has a null buffer pointer and `cap = 64`; `cvec2_destroy` leaves
it as it is, with `cap = 64`, not `0`. -/
theorem destroy_of_null_buffer_keeps_cap :
    (cvec2_init_alloc 8 null_allocator_set 4 []).1.ptr = none ∧
    (cvec2_destroy (cvec2_init_alloc 8 null_allocator_set 4 []).1
      (cvec2_init_alloc 8 null_allocator_set 4 []).2).1.cap = 64 := by
  decide

theorem grow_loop_ok (szt n : Nat) :
    ∀ (fuel vcap c : Nat), cvec2_grow_loop szt fuel vcap n = .ok c →
      n ≤ c ∧ (n ≤ vcap → c = vcap) ∧ (vcap < n → vcap < c) := by
  intro fuel
  induction fuel with
  | zero => intro vcap c hc; simp [cvec2_grow_loop] at hc
  | succ k ih =>
    intro vcap c hc
    by_cases hlt : vcap < n
    · simp only [cvec2_grow_loop, hlt, if_true] at hc
      obtain ⟨h1, _, _⟩ := ih _ c hc
      exact ⟨h1, fun hle => by omega, fun _ => by omega⟩
    · simp only [cvec2_grow_loop, hlt, if_false] at hc
      cases hc
      exact ⟨by omega, fun _ => rfl, fun h => absurd h hlt⟩

theorem grow_ok {H : Type} (szt fuel : Nat) (v w : cvec2_t H) (n : Nat) (h h1 : H)
    (hg : cvec2_grow szt fuel v n h = .ok (w, h1)) :
    n ≤ w.cap ∧ (n ≤ v.cap → w.cap = v.cap) ∧ (v.cap < n → v.cap < w.cap) ∧
      w.len = v.len ∧ w.elem_size = v.elem_size ∧ w.allocator_set = v.allocator_set ∧
      w.ptr = (v.allocator_set.realloc v.ptr (size_mul szt w.cap v.elem_size) h).1 ∧
      h1 = (v.allocator_set.realloc v.ptr (size_mul szt w.cap v.elem_size) h).2 := by
  unfold cvec2_grow at hg
  cases hc : cvec2_grow_loop szt fuel v.cap n with
  | error e => rw [hc] at hg; cases hg
  | ok c =>
    rw [hc] at hg
    obtain ⟨h1', h2', h3'⟩ := grow_loop_ok szt n fuel v.cap c hc
    simp only [Except.ok.injEq, Prod.mk.injEq] at hg
    obtain ⟨hw, hh⟩ := hg
    subst hw
    exact ⟨h1', h2', h3', rfl, rfl, rfl, rfl, hh.symm⟩

theorem grow_len_le_cap {H : Type} (szt fuel : Nat) (v w : cvec2_t H) (n : Nat) (h h1 : H)
    (hinv : v.len ≤ v.cap) (hg : cvec2_grow szt fuel v n h = .ok (w, h1)) : w.len ≤ w.cap := by
  obtain ⟨_, h2, h3, h4, _⟩ := grow_ok szt fuel v w n h h1 hg
  rcases Nat.lt_or_ge v.cap n with hlt | hge
  · have := h3 hlt; omega
  · have := h2 hge; omega

/-- C13 (amended): `len ≤ cap` holds for the vector returned by `cvec2_init_default` and
`cvec2_init_alloc`, and for a vector with `len ≤ cap` (and `cap` a `size_t` value) it holds
again after `cvec2_grow`, `cvec2_reserve`, `cvec2_push`, `cvec2_insert`, `cvec2_insert_fast`
and `cvec2_destroy` with any arguments, whenever they return; after `cvec2_resize(n)` when
`n ≥ len`; and after `cvec2_pop`, `cvec2_remove` and `cvec2_remove_fast` when `len ≥ 1`.
It is not preserved by `cvec2_resize(n)` with `n < len` (`cap` becomes `n`, `len` is kept),
nor, on a vector with `len = 0` and `cap < SIZE_MAX`, by `cvec2_remove` (it returns with
`len = SIZE_MAX`) and, when `elem_size = 0`, by `cvec2_pop` and `cvec2_remove_fast` (the
same); when `elem_size > 0` and the buffer has at most `SIZE_MAX` bytes, `cvec2_pop` and
`cvec2_remove_fast` on a vector with `len = 0` return no vector: they read a byte outside
the buffer (or through the null pointer) before `len` is changed. -/
theorem len_le_cap_preserved {H : Type} (szt fuel : Nat) (v : cvec2_t H) (n whence : Nat)
    (data into : List UInt8) (set : cvec2_allocator_set H) (h : H) (h0 : List alloc_call) :
    (cvec2_init_default szt n h0).1.len ≤ (cvec2_init_default szt n h0).1.cap ∧
    (cvec2_init_alloc szt set n h).1.len ≤ (cvec2_init_alloc szt set n h).1.cap ∧
    (v.len ≤ v.cap → v.cap < SIZE_MOD szt →
      (∀ w h1, cvec2_grow szt fuel v n h = .ok (w, h1) → w.len ≤ w.cap) ∧
      (cvec2_reserve szt v n h).1.len ≤ (cvec2_reserve szt v n h).1.cap ∧
      (v.len ≤ n → (cvec2_resize v n h).1.len ≤ (cvec2_resize v n h).1.cap) ∧
      (∀ w h1, cvec2_push szt fuel v data h = .ok (w, h1) → w.len ≤ w.cap) ∧
      (∀ w h1, cvec2_insert szt fuel v data whence h = .ok (w, h1) → w.len ≤ w.cap) ∧
      (∀ w h1, cvec2_insert_fast szt fuel v data whence h = .ok (w, h1) → w.len ≤ w.cap) ∧
      (1 ≤ v.len → ∀ w out, cvec2_pop szt v into = .ok (w, out) → w.len ≤ w.cap) ∧
      (1 ≤ v.len → ∀ w, cvec2_remove szt v whence = .ok w → w.len ≤ w.cap) ∧
      (1 ≤ v.len → ∀ w, cvec2_remove_fast szt v whence = .ok w → w.len ≤ w.cap) ∧
      (cvec2_destroy v h).1.len ≤ (cvec2_destroy v h).1.cap) ∧
    (n < v.len → (cvec2_resize v n h).1.cap < (cvec2_resize v n h).1.len) ∧
    (v.len = 0 → v.cap + 1 < SIZE_MOD szt →
      ∃ w, cvec2_remove szt v whence = .ok w ∧ w.cap < w.len) ∧
    (v.len = 0 → v.cap + 1 < SIZE_MOD szt → v.elem_size = 0 →
      (∃ w out, cvec2_pop szt v into = .ok (w, out) ∧ w.cap < w.len) ∧
      (∃ w, cvec2_remove_fast szt v whence = .ok w ∧ w.cap < w.len)) ∧
    (v.len = 0 → 0 < v.elem_size → (∀ b, v.ptr = some b → b.length < SIZE_MOD szt) →
      cvec2_pop szt v into = .error (access_fault v.ptr) ∧
      cvec2_remove_fast szt v whence = .error (access_fault v.ptr)) := by
  refine ⟨Nat.zero_le _, Nat.zero_le _, fun hinv hM => ?_, ?_, ?_, ?_, ?_⟩
  · refine ⟨?_, ?_, ?_, ?_, ?_, ?_, ?_, ?_, ?_, ?_⟩
    · intro w h1 hg
      exact grow_len_le_cap szt fuel v w n h h1 hinv hg
    · by_cases hle : n ≤ v.cap
      · simpa only [cvec2_reserve, ge_iff_le, hle, if_true] using hinv
      · simp only [cvec2_reserve, ge_iff_le, hle, if_false]; omega
    · intro hn; simpa only [cvec2_resize] using hn
    · intro w h1 hp
      unfold cvec2_push at hp
      cases hg : cvec2_grow szt fuel v (size_add szt v.len 1) h with
      | error e => rw [hg] at hp; cases hp
      | ok s =>
        obtain ⟨u, g⟩ := s
        obtain ⟨hcap, _, _, hlen, _⟩ := grow_ok szt fuel v u _ h g hg
        rw [hg] at hp
        simp only at hp
        split at hp
        · cases hp
        · simp only [Except.ok.injEq, Prod.mk.injEq] at hp
          obtain ⟨hw, _⟩ := hp
          subst hw
          show size_add szt u.len 1 ≤ u.cap
          rw [hlen]; exact hcap
    · intro w h1 hp
      unfold cvec2_insert at hp
      cases hg : cvec2_grow szt fuel v (size_add szt v.len 1) h with
      | error e => rw [hg] at hp; cases hp
      | ok s =>
        obtain ⟨u, g⟩ := s
        obtain ⟨hcap, _, _, hlen, _⟩ := grow_ok szt fuel v u _ h g hg
        rw [hg] at hp
        simp only at hp
        split at hp
        · cases hp
        · split at hp
          · cases hp
          · simp only [Except.ok.injEq, Prod.mk.injEq] at hp
            obtain ⟨hw, _⟩ := hp
            subst hw
            show size_add szt u.len 1 ≤ u.cap
            rw [hlen]; exact hcap
    · intro w h1 hp
      unfold cvec2_insert_fast at hp
      cases hg : cvec2_grow szt fuel v (size_add szt v.len 1) h with
      | error e => rw [hg] at hp; cases hp
      | ok s =>
        obtain ⟨u, g⟩ := s
        have hu := grow_len_le_cap szt fuel v u _ h g hinv hg
        rw [hg] at hp
        simp only at hp
        split at hp
        · cases hp
        · split at hp
          · cases hp
          · simp only [Except.ok.injEq, Prod.mk.injEq] at hp
            obtain ⟨hw, _⟩ := hp
            subst hw
            exact hu
    · intro h1 w out hp
      unfold cvec2_pop at hp
      split at hp
      · cases hp
      · simp only [Except.ok.injEq, Prod.mk.injEq] at hp
        obtain ⟨hw, _⟩ := hp
        subst hw
        show size_sub szt v.len 1 ≤ v.cap
        rw [size_sub_one h1 (by omega)]; omega
    · intro h1 w hp
      unfold cvec2_remove at hp
      split at hp
      · cases hp
      · simp only [Except.ok.injEq] at hp
        subst hp
        show size_sub szt v.len 1 ≤ v.cap
        rw [size_sub_one h1 (by omega)]; omega
    · intro h1 w hp
      unfold cvec2_remove_fast at hp
      split at hp
      · cases hp
      · simp only [Except.ok.injEq] at hp
        subst hp
        show size_sub szt v.len 1 ≤ v.cap
        rw [size_sub_one h1 (by omega)]; omega
    · cases hp : v.ptr with
      | none => simpa only [cvec2_destroy, hp] using hinv
      | some b => simp only [cvec2_destroy, hp, le_refl]
  · intro hn; simpa only [cvec2_resize] using hn
  · intro hlen hcap
    exact ⟨_, (ops_on_empty szt v whence into hlen).1, by show v.cap < SIZE_MOD szt - 1; omega⟩
  · intro hlen hcap hes
    obtain ⟨hp, hr⟩ := (ops_on_empty szt v whence into hlen).2.2 hes
    exact ⟨⟨_, _, hp, by show v.cap < SIZE_MOD szt - 1; omega⟩,
      ⟨_, hr, by show v.cap < SIZE_MOD szt - 1; omega⟩⟩
  · intro hlen hes hbuf
    exact (ops_on_empty szt v whence into hlen).2.1 hes hbuf

/-- C13 (counterexample): `cvec2_resize` with the size 2 on the vector `[0, 1, 2]`, which
has `len = 3 ≤ cap = 64`, returns a vector with `cap = 2 < len = 3`. -/
theorem resize_below_len_breaks_invariant :
    three_ints.len ≤ three_ints.cap ∧
    (cvec2_resize three_ints 2 []).1.cap = 2 ∧ (cvec2_resize three_ints 2 []).1.len = 3 := by
  decide

theorem len_le_cap_preserved_witness :
    (three_ints.len ≤ three_ints.cap ∧ three_ints.cap < SIZE_MOD 8) ∧
    (cvec2_reserve 8 three_ints 100 []).1.len ≤ (cvec2_reserve 8 three_ints 100 []).1.cap ∧
    (three_ints.len ≤ 100 →
      (cvec2_resize three_ints 100 []).1.len ≤ (cvec2_resize three_ints 100 []).1.cap) ∧
    (∀ w h1, cvec2_push 8 2 three_ints (int_bytes 9) [] = .ok (w, h1) → w.len ≤ w.cap) ∧
    (1 ≤ three_ints.len → ∀ w, cvec2_remove 8 three_ints 1 = .ok w → w.len ≤ w.cap) ∧
    (cvec2_resize three_ints 2 []).1.cap < (cvec2_resize three_ints 2 []).1.len ∧
    (∃ w, cvec2_remove 8 (cvec2_init_default 8 4 []).1 0 = .ok w ∧ w.cap < w.len) ∧
    ((∃ w out, cvec2_pop 8 (cvec2_destroy three_ints []).1 [0, 0, 0, 0] = .ok (w, out) ∧
        w.cap < w.len) ∧
      (∃ w, cvec2_remove_fast 8 (cvec2_destroy three_ints []).1 0 = .ok w ∧ w.cap < w.len)) ∧
    (cvec2_pop 8 (cvec2_init_default 8 4 []).1 [0, 0, 0, 0] = .error Fault.out_of_bounds ∧
      cvec2_remove_fast 8 (cvec2_init_default 8 4 []).1 0 = .error Fault.out_of_bounds) :=
  have hall := len_le_cap_preserved 8 2 three_ints 100 1 (int_bytes 9) [0, 0, 0, 0]
    cvec2_SG_default_allocator_set [] []
  have hpos := hall.2.2.1 (by decide) (by decide)
  have hsmall := len_le_cap_preserved 8 2 three_ints 2 1 (int_bytes 9) [0, 0, 0, 0]
    cvec2_SG_default_allocator_set [] []
  have hfresh := len_le_cap_preserved 8 2 (cvec2_init_default 8 4 []).1 100 0 (int_bytes 9)
    [0, 0, 0, 0] cvec2_SG_default_allocator_set [] []
  have hgone := len_le_cap_preserved 8 2 (cvec2_destroy three_ints []).1 100 0 (int_bytes 9)
    [0, 0, 0, 0] cvec2_SG_default_allocator_set [] []
  ⟨⟨by decide, by decide⟩, hpos.2.1, hpos.2.2.1, hpos.2.2.2.1, hpos.2.2.2.2.2.2.2.1,
    hsmall.2.2.2.1 (by decide),
    hfresh.2.2.2.2.1 (by decide) (by decide),
    hgone.2.2.2.2.2.1 (by decide) (by decide) (by decide),
    hfresh.2.2.2.2.2.2 (by decide) (by decide)
      (by
        intro b hb
        have hb2 : b = List.replicate 256 0xAA := by
          have : (cvec2_init_default 8 4 []).1.ptr = some (List.replicate 256 0xAA) := by decide
          rw [this] at hb
          exact (Option.some.inj hb).symm
        rw [hb2]
        decide)⟩

/-- C14: `cvec2_resize` with the size 8 on the vector `[0, 1, 2]` of 4-byte `int`s sets
`cap = 8` and calls `realloc` with 8 bytes, so the buffer has 8 bytes, not
`cap * elem_size = 32`. -/
theorem resize_requests_cap_bytes :
    (cvec2_resize three_ints 8 []).2 = [alloc_call.realloc 8] ∧
    (cvec2_resize three_ints 8 []).1.ptr.map List.length = some 8 ∧
    (cvec2_resize three_ints 8 []).1.cap * (cvec2_resize three_ints 8 []).1.elem_size = 32 := by
  decide

theorem memcpy_store_null (frm : List UInt8) (t n : Nat) (hfrm : n + 1 ≤ frm.length) :
    cvec2_memcpy none t (some frm) 0 (n + 1) = .error .null_pointer := by
  cases frm with
  | nil => simp at hfrm
  | cons x r => simp [cvec2_memcpy, load, store]

theorem memcpy_within_null (t f n : Nat) :
    cvec2_memcpy_within none t f (n + 1) = .error .null_pointer := by
  simp [cvec2_memcpy_within, load]

theorem insert_loop_null (szt es whence : Nat) (hes : 0 < es) :
    ∀ k, cvec2_insert_loop szt es whence none k = .ok none ∨
      cvec2_insert_loop szt es whence none k = .error .null_pointer := by
  intro k
  cases k with
  | zero => exact Or.inl rfl
  | succ j =>
    obtain ⟨m, hm⟩ : ∃ m, es = m + 1 := ⟨es - 1, by omega⟩
    right
    simp only [cvec2_insert_loop, hm, memcpy_within_null]

/-- C15 (amended): the code never tests what the allocator returns and reports no
`AllocationFailure`.  On every vector, when the call of `realloc` made by the operation
returns the null pointer, `cvec2_resize`, `cvec2_reserve` (with `cap < n`) and `cvec2_grow`
(once its loop has ended) return normally with the buffer pointer null, so the old pointer
is lost, and `cap` set to its new value, `len` and `elem_size` unchanged; `cvec2_push`,
`cvec2_insert` and `cvec2_insert_fast`, with `elem_size > 0` and an element of `elem_size`
bytes, then access memory through the null pointer. -/
theorem realloc_failure_unchecked {H : Type} (szt fuel : Nat) (v : cvec2_t H) (n whence : Nat)
    (frm : List UInt8) (h : H) :
    ((v.allocator_set.realloc v.ptr n h).1 = none →
      cvec2_resize v n h
        = ({ v with cap := n, ptr := none }, (v.allocator_set.realloc v.ptr n h).2)) ∧
    (v.cap < n → (v.allocator_set.realloc v.ptr (size_mul szt n v.elem_size) h).1 = none →
      cvec2_reserve szt v n h
        = ({ v with cap := n, ptr := none },
            (v.allocator_set.realloc v.ptr (size_mul szt n v.elem_size) h).2)) ∧
    (∀ c, cvec2_grow_loop szt fuel v.cap n = .ok c →
      (v.allocator_set.realloc v.ptr (size_mul szt c v.elem_size) h).1 = none →
      cvec2_grow szt fuel v n h
        = .ok ({ v with cap := c, ptr := none },
            (v.allocator_set.realloc v.ptr (size_mul szt c v.elem_size) h).2)) ∧
    (∀ c, cvec2_grow_loop szt fuel v.cap (size_add szt v.len 1) = .ok c →
      (v.allocator_set.realloc v.ptr (size_mul szt c v.elem_size) h).1 = none →
      0 < v.elem_size → frm.length = v.elem_size →
      cvec2_push szt fuel v frm h = .error .null_pointer ∧
      cvec2_insert szt fuel v frm whence h = .error .null_pointer ∧
      cvec2_insert_fast szt fuel v frm whence h = .error .null_pointer) := by
  have hgen : ∀ t c, cvec2_grow_loop szt fuel v.cap t = .ok c →
      (v.allocator_set.realloc v.ptr (size_mul szt c v.elem_size) h).1 = none →
      cvec2_grow szt fuel v t h
        = .ok ({ v with cap := c, ptr := none },
            (v.allocator_set.realloc v.ptr (size_mul szt c v.elem_size) h).2) := by
    intro t c ht hnull
    simp only [cvec2_grow, ht, hnull]
  refine ⟨fun hnull => ?_, fun hlt hnull => ?_, hgen n, fun c hloop hnull hes hfrm => ?_⟩
  · simp only [cvec2_resize, hnull]
  · simp only [cvec2_reserve, ge_iff_le, Nat.not_le.mpr hlt, if_false, hnull]
  · obtain ⟨m, hm⟩ : ∃ m, v.elem_size = m + 1 := ⟨v.elem_size - 1, by omega⟩
    have hg := hgen _ c hloop hnull
    have hcopy : ∀ t, cvec2_memcpy none t (some frm) 0 v.elem_size = .error .null_pointer := by
      intro t; rw [hm]; exact memcpy_store_null frm t m (by omega)
    refine ⟨?_, ?_, ?_⟩
    · simp only [cvec2_push, hg, hcopy]
    · simp only [cvec2_insert, hg]
      rcases insert_loop_null szt v.elem_size whence hes (v.len - whence) with hl | hl
      · simp only [hl, hcopy]
      · simp only [hl]
    · simp only [cvec2_insert_fast, hg]
      rw [hm, memcpy_within_null]

theorem realloc_failure_unchecked_witness :
    three_ints_exhausted.1.ptr.isSome = true ∧
    cvec2_resize three_ints_exhausted.1 100 three_ints_exhausted.2
      = ({ three_ints_exhausted.1 with cap := 100, ptr := none },
          (three_ints_exhausted.1.allocator_set.realloc three_ints_exhausted.1.ptr 100
            three_ints_exhausted.2).2) ∧
    cvec2_reserve 8 three_ints_exhausted.1 100 three_ints_exhausted.2
      = ({ three_ints_exhausted.1 with cap := 100, ptr := none },
          (three_ints_exhausted.1.allocator_set.realloc three_ints_exhausted.1.ptr
            (size_mul 8 100 three_ints_exhausted.1.elem_size) three_ints_exhausted.2).2) ∧
    cvec2_grow 8 2 three_ints_exhausted.1 100 three_ints_exhausted.2
      = .ok ({ three_ints_exhausted.1 with cap := 128, ptr := none },
          (three_ints_exhausted.1.allocator_set.realloc three_ints_exhausted.1.ptr
            (size_mul 8 128 three_ints_exhausted.1.elem_size) three_ints_exhausted.2).2) ∧
    cvec2_push 8 2 three_ints_exhausted.1 (int_bytes 9) three_ints_exhausted.2
      = .error .null_pointer ∧
    cvec2_insert 8 2 three_ints_exhausted.1 (int_bytes 9) 1 three_ints_exhausted.2
      = .error .null_pointer ∧
    cvec2_insert_fast 8 2 three_ints_exhausted.1 (int_bytes 9) 1 three_ints_exhausted.2
      = .error .null_pointer :=
  have t := realloc_failure_unchecked 8 2 three_ints_exhausted.1 100 1 (int_bytes 9)
    three_ints_exhausted.2
  have u := t.2.2.2 64 (by decide) (by decide) (by decide) (by decide)
  ⟨by decide, t.1 (by decide), t.2.1 (by decide) (by decide),
    t.2.2.1 128 (by decide) (by decide), u.1, u.2.1, u.2.2⟩

/-- C15 (counterexample): with an allocator whose `realloc` returns the null pointer,
`cvec2_reserve` with the target 100 on the vector `[0, 1, 2]` (non-null buffer, `cap = 64`)
returns with the buffer pointer null and `cap = 100`. -/
theorem reserve_loses_buffer_on_failure :
    three_ints_failing.ptr.isSome = true ∧ three_ints_failing.cap = 64 ∧
    (cvec2_reserve 8 three_ints_failing 100 []).1.ptr = none ∧
    (cvec2_reserve 8 three_ints_failing 100 []).1.cap
      = 100 := by
  decide

theorem push_ok_heap {H : Type} (szt fuel : Nat) (v w : cvec2_t H) (data : List UInt8) (h h1 : H)
    (hp : cvec2_push szt fuel v data h = .ok (w, h1)) :
    h1 = (v.allocator_set.realloc v.ptr (size_mul szt w.cap v.elem_size) h).2 := by
  unfold cvec2_push at hp
  cases hg : cvec2_grow szt fuel v (size_add szt v.len 1) h with
  | error e => rw [hg] at hp; cases hp
  | ok s =>
    obtain ⟨u, g⟩ := s
    obtain ⟨_, _, _, _, _, _, _, hheap⟩ := grow_ok szt fuel v u _ h g hg
    rw [hg] at hp
    simp only at hp
    split at hp
    · cases hp
    · simp only [Except.ok.injEq, Prod.mk.injEq] at hp
      obtain ⟨hw, hh⟩ := hp
      subst hw
      rw [← hh]; exact hheap

theorem push_all_keeps_cap {H : Type} (szt fuel : Nat) (hfuel : 2 ≤ fuel) (vs : List (List UInt8)) :
    ∀ (v : cvec2_t H) (xs : List (List UInt8)) (h : H), AllocOk v.allocator_set → Stores v xs →
      0 < v.elem_size → (∀ d ∈ vs, d.length = v.elem_size) → 1 ≤ v.cap →
      v.len + vs.length ≤ v.cap → v.cap * v.elem_size < SIZE_MOD szt →
      ∃ w h1, push_all szt fuel v vs h = .ok (w, h1) ∧ Stores w (xs ++ vs) ∧ w.cap = v.cap ∧
        w.elem_size = v.elem_size ∧ w.allocator_set = v.allocator_set := by
  induction vs with
  | nil =>
    intro v xs h _ hst _ _ _ _ _
    exact ⟨v, h, rfl, by simpa using hst, rfl, rfl, rfl⟩
  | cons d rest ih =>
    intro v xs h hok hst hes hvs hcap hroom hfit
    simp only [List.length_cons] at hroom
    obtain ⟨w, h1, hpush, hst1, hes1, hal1, hc1⟩ :=
      push_step szt fuel v xs d h v.cap hok hst hes (hvs d (by simp)) hcap (le_refl _)
        (fun hc => by omega) hfit hfuel
    have hwc : w.cap = v.cap := by
      rcases hc1 with hsame | ⟨hc, _⟩
      · exact hsame
      · omega
    have hwl : w.len = v.len + 1 := by
      obtain ⟨_, _, _, hl, _⟩ := hst1
      obtain ⟨_, _, _, hl0, _⟩ := hst
      rw [hl, hl0]; simp
    obtain ⟨w2, h2, hrest, hst2, hc2, hes2, hal2⟩ :=
      ih w (xs ++ [d]) h1 (hal1 ▸ hok) hst1 (hes1 ▸ hes)
        (fun e he => by rw [hes1]; exact hvs e (by simp [he])) (by omega) (by omega)
        (by rw [hwc, hes1]; exact hfit)
    refine ⟨w2, h2, ?_, by simpa using hst2, by rw [hc2, hwc], by rw [hes2, hes1],
      by rw [hal2, hal1]⟩
    simp only [push_all, hpush, hrest]

theorem init_alloc_stores {H : Type} (szt es : Nat) (set : cvec2_allocator_set H) (h : H)
    (hok : AllocOk set) (hfit : CVEC2_DEFAULT_CAP szt * es < SIZE_MOD szt) :
    Stores (cvec2_init_alloc szt set es h).1 [] := by
  obtain ⟨b, hb, hbl⟩ := hok.1 (size_mul szt (CVEC2_DEFAULT_CAP szt) es) h
  refine ⟨b, ?_, ?_, rfl, by simp⟩
  · simpa [cvec2_init_alloc] using hb
  · simp [cvec2_init_alloc, hbl, size_mul_eq hfit]

theorem pushes_from_default_cap {H : Type} (szt fuel es : Nat) (set : cvec2_allocator_set H)
    (h : H) (h0 : List alloc_call) (vs : List (List UInt8)) (x : List UInt8)
    (hszt : 0 < szt) (hok : AllocOk set) (hes : 0 < es) (hvs : ∀ v ∈ vs, v.length = es)
    (hx : x.length = es) (hfit : CVEC2_DEFAULT_CAP szt * es < SIZE_MOD szt) (hfuel : 2 ≤ fuel) :
    ((cvec2_init_alloc szt set es h).1.len = 0 ∧ (cvec2_init_alloc szt set es h).1.elem_size = es ∧
      (cvec2_init_alloc szt set es h).1.cap = CVEC2_DEFAULT_CAP szt) ∧
    ((cvec2_init_default szt es h0).1.len = 0 ∧ (cvec2_init_default szt es h0).1.elem_size = es ∧
      (cvec2_init_default szt es h0).1.cap = CVEC2_DEFAULT_CAP szt) ∧
    CVEC2_DEFAULT_CAP szt = 8 * szt ∧
    cvec2_init_default szt es h0 = cvec2_init_alloc szt cvec2_SG_default_allocator_set es h0 ∧
    (vs.length < CVEC2_DEFAULT_CAP szt → ∃ w h1 w2 h2,
      push_all szt fuel (cvec2_init_alloc szt set es h).1 vs (cvec2_init_alloc szt set es h).2
        = .ok (w, h1) ∧ w.cap = CVEC2_DEFAULT_CAP szt ∧ w.len = vs.length ∧
      cvec2_push szt fuel w x h1 = .ok (w2, h2) ∧ w2.cap = CVEC2_DEFAULT_CAP szt ∧
      w2.len = vs.length + 1 ∧
      h2 = (set.realloc w.ptr (CVEC2_DEFAULT_CAP szt * es) h1).2) ∧
    (vs.length = CVEC2_DEFAULT_CAP szt → 2 * CVEC2_DEFAULT_CAP szt * es < SIZE_MOD szt →
      ∃ w h1 w2 h2,
      push_all szt fuel (cvec2_init_alloc szt set es h).1 vs (cvec2_init_alloc szt set es h).2
        = .ok (w, h1) ∧ w.cap = CVEC2_DEFAULT_CAP szt ∧ w.len = vs.length ∧
      cvec2_push szt fuel w x h1 = .ok (w2, h2) ∧ w2.cap = 2 * CVEC2_DEFAULT_CAP szt ∧
      w2.len = vs.length + 1 ∧
      h2 = (set.realloc w.ptr (2 * CVEC2_DEFAULT_CAP szt * es) h1).2) := by
  have hrun : vs.length ≤ CVEC2_DEFAULT_CAP szt → 1 ≤ CVEC2_DEFAULT_CAP szt →
      ∃ w h1, push_all szt fuel (cvec2_init_alloc szt set es h).1 vs
          (cvec2_init_alloc szt set es h).2 = .ok (w, h1) ∧ Stores w vs ∧
        w.cap = CVEC2_DEFAULT_CAP szt ∧ w.elem_size = es ∧ w.allocator_set = set ∧
        w.len = vs.length := by
    intro hle hD
    obtain ⟨w, h1, hp, hst, hc, he, ha⟩ :=
      push_all_keeps_cap szt fuel hfuel vs (cvec2_init_alloc szt set es h).1 [] _ hok
        (init_alloc_stores szt es set h hok hfit) hes hvs hD
        (by simpa [cvec2_init_alloc] using hle) hfit
    rw [List.nil_append] at hst
    have hl : w.len = vs.length := by
      obtain ⟨_, _, _, hl, _⟩ := hst
      exact hl
    exact ⟨w, h1, hp, hst, hc, he, ha, hl⟩
  refine ⟨⟨rfl, rfl, rfl⟩, ⟨rfl, rfl, rfl⟩, by rw [default_cap_eq, Nat.mul_comm], rfl, ?_, ?_⟩
  · intro hlt
    obtain ⟨w, h1, hp, hst, hc, he, ha, hl⟩ := hrun (le_of_lt hlt) (by omega)
    obtain ⟨w2, h2, hpush, hst2, hes2, _, hc2⟩ :=
      push_step szt fuel w vs x h1 w.cap (ha ▸ hok) hst (he ▸ hes) (by rw [he]; exact hx)
        (by omega) (le_refl _) (fun hcl => by omega) (by rw [hc, he]; exact hfit) hfuel
    have hwc : w2.cap = CVEC2_DEFAULT_CAP szt := by
      rcases hc2 with hsame | ⟨hcl, _⟩
      · rw [hsame, hc]
      · omega
    refine ⟨w, h1, w2, h2, hp, hc, hl, hpush, hwc, ?_, ?_⟩
    · obtain ⟨_, _, _, hl2, _⟩ := hst2
      simpa using hl2
    · have hh := push_ok_heap szt fuel w w2 x h1 h2 hpush
      rw [hwc, he, ha, size_mul_eq hfit] at hh
      exact hh
  · intro heq hfit2
    have hD : 0 < CVEC2_DEFAULT_CAP szt := by rw [default_cap_eq]; omega
    obtain ⟨w, h1, hp, hst, hc, he, ha, hl⟩ := hrun (le_of_eq heq) hD
    obtain ⟨w2, h2, hpush, hst2, hes2, _, hc2⟩ :=
      push_step szt fuel w vs x h1 (2 * w.cap) (ha ▸ hok) hst (he ▸ hes) (by rw [he]; exact hx)
        (by omega) (by omega) (fun _ => le_refl _) (by rw [hc, he]; exact hfit2) hfuel
    have hlen2 : w2.len = vs.length + 1 := by
      obtain ⟨_, _, _, hl2, _⟩ := hst2
      simpa using hl2
    have hwc : w2.cap = 2 * CVEC2_DEFAULT_CAP szt := by
      rcases hc2 with hsame | ⟨_, hdbl⟩
      · exfalso
        have := stores_len_le_cap w2 (vs ++ [x]) hst2 (by rw [hes2, he]; exact hes)
        omega
      · rw [hdbl, hc]
    refine ⟨w, h1, w2, h2, hp, hc, hl, hpush, hwc, hlen2, ?_⟩
    have hh := push_ok_heap szt fuel w w2 x h1 h2 hpush
    rw [hwc, he, ha, size_mul_eq hfit2] at hh
    exact hh

/-- C16 (amended): a vector returned by `cvec2_init_default` or `cvec2_init_alloc` has
`len = 0`, `elem_size` equal to the argument and `cap = CVEC2_DEFAULT_CAP = 8 * sizeof(size_t)`,
whatever the allocator returns, and `cvec2_init_default` is `cvec2_init_alloc` with the
standard allocator set.  With an allocator that never fails and preserves contents,
elements of `elem_size > 0` bytes and `CVEC2_DEFAULT_CAP * elem_size` representable in
`size_t`: after fewer than `CVEC2_DEFAULT_CAP` pushes the next push leaves
`cap = CVEC2_DEFAULT_CAP` and its reallocation asks for `CVEC2_DEFAULT_CAP * elem_size`
bytes, the size of the first buffer; after `CVEC2_DEFAULT_CAP` pushes the next push, when
`sizeof(size_t) > 0` and `2 * CVEC2_DEFAULT_CAP * elem_size` is representable too, makes
`cap` exactly `2 * CVEC2_DEFAULT_CAP`. -/
theorem default_cap_then_doubles {H : Type} (szt fuel es : Nat) (set : cvec2_allocator_set H)
    (h : H) (h0 : List alloc_call) (vs : List (List UInt8)) (x : List UInt8) :
    ((cvec2_init_alloc szt set es h).1.len = 0 ∧ (cvec2_init_alloc szt set es h).1.elem_size = es ∧
      (cvec2_init_alloc szt set es h).1.cap = CVEC2_DEFAULT_CAP szt) ∧
    ((cvec2_init_default szt es h0).1.len = 0 ∧ (cvec2_init_default szt es h0).1.elem_size = es ∧
      (cvec2_init_default szt es h0).1.cap = CVEC2_DEFAULT_CAP szt) ∧
    CVEC2_DEFAULT_CAP szt = 8 * szt ∧
    cvec2_init_default szt es h0 = cvec2_init_alloc szt cvec2_SG_default_allocator_set es h0 ∧
    (AllocOk set → 0 < es → (∀ v ∈ vs, v.length = es) → x.length = es →
      CVEC2_DEFAULT_CAP szt * es < SIZE_MOD szt → 2 ≤ fuel →
      vs.length < CVEC2_DEFAULT_CAP szt → ∃ w h1 w2 h2,
      push_all szt fuel (cvec2_init_alloc szt set es h).1 vs (cvec2_init_alloc szt set es h).2
        = .ok (w, h1) ∧ w.cap = CVEC2_DEFAULT_CAP szt ∧ w.len = vs.length ∧
      cvec2_push szt fuel w x h1 = .ok (w2, h2) ∧ w2.cap = CVEC2_DEFAULT_CAP szt ∧
      w2.len = vs.length + 1 ∧
      h2 = (set.realloc w.ptr (CVEC2_DEFAULT_CAP szt * es) h1).2) ∧
    (0 < szt → AllocOk set → 0 < es → (∀ v ∈ vs, v.length = es) → x.length = es → 2 ≤ fuel →
      vs.length = CVEC2_DEFAULT_CAP szt → 2 * CVEC2_DEFAULT_CAP szt * es < SIZE_MOD szt →
      ∃ w h1 w2 h2,
      push_all szt fuel (cvec2_init_alloc szt set es h).1 vs (cvec2_init_alloc szt set es h).2
        = .ok (w, h1) ∧ w.cap = CVEC2_DEFAULT_CAP szt ∧ w.len = vs.length ∧
      cvec2_push szt fuel w x h1 = .ok (w2, h2) ∧ w2.cap = 2 * CVEC2_DEFAULT_CAP szt ∧
      w2.len = vs.length + 1 ∧
      h2 = (set.realloc w.ptr (2 * CVEC2_DEFAULT_CAP szt * es) h1).2) := by
  refine ⟨⟨rfl, rfl, rfl⟩, ⟨rfl, rfl, rfl⟩, by rw [default_cap_eq, Nat.mul_comm], rfl, ?_, ?_⟩
  · intro hok hes hvs hx hfit hfuel hlt
    have hszt : 0 < szt := by rw [default_cap_eq] at hlt; omega
    exact (pushes_from_default_cap szt fuel es set h h0 vs x hszt hok hes hvs hx hfit
      hfuel).2.2.2.2.1 hlt
  · intro hszt hok hes hvs hx hfuel heq hfit2
    have hfit : CVEC2_DEFAULT_CAP szt * es < SIZE_MOD szt := by
      have : CVEC2_DEFAULT_CAP szt * es ≤ 2 * CVEC2_DEFAULT_CAP szt * es := by
        rw [Nat.mul_assoc]; omega
      omega
    exact (pushes_from_default_cap szt fuel es set h h0 vs x hszt hok hes hvs hx hfit
      hfuel).2.2.2.2.2 heq hfit2

theorem default_cap_then_doubles_witness :
    ((cvec2_init_alloc 8 null_allocator_set 4 []).1.len = 0 ∧
      (cvec2_init_alloc 8 null_allocator_set 4 []).1.elem_size = 4 ∧
      (cvec2_init_alloc 8 null_allocator_set 4 []).1.cap = CVEC2_DEFAULT_CAP 8) ∧
    (∃ w h1 w2 h2,
      push_all 8 2 (cvec2_init_alloc 8 cvec2_SG_default_allocator_set 4 []).1
        [int_bytes 0, int_bytes 1] (cvec2_init_alloc 8 cvec2_SG_default_allocator_set 4 []).2
        = .ok (w, h1) ∧ w.cap = CVEC2_DEFAULT_CAP 8 ∧ w.len = [int_bytes 0, int_bytes 1].length ∧
      cvec2_push 8 2 w (int_bytes 2) h1 = .ok (w2, h2) ∧ w2.cap = CVEC2_DEFAULT_CAP 8 ∧
      w2.len = [int_bytes 0, int_bytes 1].length + 1 ∧
      h2 = (cvec2_SG_default_allocator_set.realloc w.ptr (CVEC2_DEFAULT_CAP 8 * 4) h1).2) ∧
    (∃ w h1 w2 h2,
      push_all 8 2 (cvec2_init_alloc 8 cvec2_SG_default_allocator_set 4 []).1
        ((List.range 64).map int_bytes) (cvec2_init_alloc 8 cvec2_SG_default_allocator_set 4 []).2
        = .ok (w, h1) ∧ w.cap = CVEC2_DEFAULT_CAP 8 ∧
      w.len = ((List.range 64).map int_bytes).length ∧
      cvec2_push 8 2 w (int_bytes 64) h1 = .ok (w2, h2) ∧ w2.cap = 2 * CVEC2_DEFAULT_CAP 8 ∧
      w2.len = ((List.range 64).map int_bytes).length + 1 ∧
      h2 = (cvec2_SG_default_allocator_set.realloc w.ptr (2 * CVEC2_DEFAULT_CAP 8 * 4) h1).2) :=
  ⟨(default_cap_then_doubles 8 2 4 null_allocator_set [] [] [] []).1,
    (default_cap_then_doubles 8 2 4 cvec2_SG_default_allocator_set [] []
      [int_bytes 0, int_bytes 1] (int_bytes 2)).2.2.2.2.1 default_allocator_ok (by decide)
      (by simp [int_bytes]) (by decide) (by decide) (by decide) (by decide),
    (default_cap_then_doubles 8 2 4 cvec2_SG_default_allocator_set [] []
      ((List.range 64).map int_bytes) (int_bytes 64)).2.2.2.2.2 (by decide) default_allocator_ok
      (by decide) (by simp [int_bytes]) (by decide) (by decide) (by decide) (by decide)⟩

/-- C16 (counterexample): the first `cvec2_push` does not leave `cap` at
`CVEC2_DEFAULT_CAP` in either of two cases.  On the vector returned by `cvec2_init_alloc`
when the allocator returns the null pointer (`cap = 64`, null buffer pointer) it writes
through the null pointer; and with `sizeof(size_t) = 4` and `elem_size = 2^27`, on the
vector returned by `cvec2_init_default` (`cap = 32`, a buffer of `32 * 2^27 = 2^32`, wrapped
to `0`, bytes), it writes outside the buffer. -/
theorem first_push_faults :
    (cvec2_init_alloc 8 null_allocator_set 4 []).1.cap = 64 ∧
    (cvec2_push 8 2 (cvec2_init_alloc 8 null_allocator_set 4 []).1 (int_bytes 1)
      (cvec2_init_alloc 8 null_allocator_set 4 []).2).map (fun s => s.1.cap)
        = .error Fault.null_pointer ∧
    (cvec2_init_default 4 (2 ^ 27) []).1.cap = 32 ∧
    (cvec2_push 4 2 (cvec2_init_default 4 (2 ^ 27) []).1 (List.replicate (2 ^ 27) 0)
      (cvec2_init_default 4 (2 ^ 27) []).2).map (fun s => s.1.cap)
        = .error Fault.out_of_bounds := by
  decide

theorem grow_loop_step (szt k vcap n : Nat) :
    cvec2_grow_loop szt (k + 1) vcap n
      = if vcap < n then cvec2_grow_loop szt k (cvec2_grow_body szt vcap) n else .ok vcap := rfl

theorem grow_body_iterate (szt : Nat) :
    ∀ (j c : Nat), c < SIZE_MOD szt → (cvec2_grow_body szt)^[j] c = c * 2 ^ j % SIZE_MOD szt := by
  intro j
  induction j with
  | zero => intro c hc; simp [Nat.mod_eq_of_lt hc]
  | succ j ih =>
    intro c hc
    rw [Function.iterate_succ_apply', ih c hc]
    unfold cvec2_grow_body size_mul CVEC2_DEFAULT_GROWTH
    rw [Nat.mod_mul_mod]
    congr 1; ring

theorem grow_never_from_zero {H : Type} (szt : Nat) (v : cvec2_t H) (n : Nat) (h : H)
    (hcap : v.cap = 0) (hn : 1 ≤ n) :
    ∀ fuel, cvec2_grow szt fuel v n h = .error .out_of_fuel := by
  intro fuel
  simp only [cvec2_grow, hcap, grow_loop_stuck_at_zero szt n hn fuel]

/-- C17 (amended): for every vector with `cap = 0` and every target `n ≥ 1`, the loop of
`cvec2_grow` never advances: after any number of executions of its body `cap` is still `0`
and the condition `cap < n` still holds, so `cvec2_grow(n)` does not return, whatever the
fuel.  `cvec2_push`, `cvec2_insert` and `cvec2_insert_fast` on such a vector call
`cvec2_grow` with the `size_t` target `len + 1` and do not return either when that target
is `≥ 1`, which for a `size_t` value `len` means `len ≠ SIZE_MAX`; when the target is `0`
the loop of `cvec2_grow` ends at once and `cvec2_grow` returns with `cap = 0`. -/
theorem grow_starves_at_zero_cap {H : Type} (szt : Nat) (v : cvec2_t H) (n whence : Nat)
    (frm : List UInt8) (h : H) (hcap : v.cap = 0) :
    (1 ≤ n → ∀ k, (cvec2_grow_body szt)^[k] v.cap = 0 ∧ (cvec2_grow_body szt)^[k] v.cap < n) ∧
    (1 ≤ n → ∀ fuel, cvec2_grow szt fuel v n h = .error .out_of_fuel) ∧
    (1 ≤ size_add szt v.len 1 → ∀ fuel,
      cvec2_push szt fuel v frm h = .error .out_of_fuel ∧
      cvec2_insert szt fuel v frm whence h = .error .out_of_fuel ∧
      cvec2_insert_fast szt fuel v frm whence h = .error .out_of_fuel) ∧
    (v.len < SIZE_MOD szt → (1 ≤ size_add szt v.len 1 ↔ v.len ≠ SIZE_MOD szt - 1)) ∧
    (size_add szt v.len 1 = 0 → ∀ fuel, 1 ≤ fuel →
      cvec2_grow szt fuel v (size_add szt v.len 1) h
        = .ok ({ v with cap := 0, ptr := (v.allocator_set.realloc v.ptr 0 h).1 },
            (v.allocator_set.realloc v.ptr 0 h).2)) := by
  have hit : ∀ k, (cvec2_grow_body szt)^[k] v.cap = 0 := by
    intro k
    rw [hcap, grow_body_iterate szt k 0 (SIZE_MOD_pos szt)]
    simp
  refine ⟨fun hn k => ⟨hit k, by rw [hit k]; omega⟩,
    fun hn => grow_never_from_zero szt v n h hcap hn, ?_, ?_, ?_⟩
  · intro ht fuel
    have hg := grow_never_from_zero szt v (size_add szt v.len 1) h hcap ht fuel
    refine ⟨?_, ?_, ?_⟩
    · simp only [cvec2_push, hg]
    · simp only [cvec2_insert, hg]
    · simp only [cvec2_insert_fast, hg]
  · intro hlen
    have hp := SIZE_MOD_pos szt
    unfold size_add
    constructor
    · intro h1 heq
      rw [heq, Nat.sub_add_cancel hp, Nat.mod_self] at h1
      omega
    · intro hne
      rw [Nat.mod_eq_of_lt (by omega)]
      omega
  · intro h0 fuel hfuel
    obtain ⟨k, hk⟩ : ∃ k, fuel = k + 1 := ⟨fuel - 1, by omega⟩
    simp only [cvec2_grow, h0, hk, hcap, cvec2_grow_loop, Nat.lt_irrefl, if_false, size_mul,
      Nat.zero_mul, Nat.zero_mod]

theorem grow_starves_at_zero_cap_witness :
    (∀ k, (cvec2_grow_body 8)^[k] (cvec2_destroy three_ints []).1.cap = 0 ∧
      (cvec2_grow_body 8)^[k] (cvec2_destroy three_ints []).1.cap < 1) ∧
    (∀ fuel, cvec2_grow 8 fuel (cvec2_destroy three_ints []).1 1 [] = .error .out_of_fuel) ∧
    (∀ fuel,
      cvec2_push 8 fuel (cvec2_destroy three_ints []).1 (int_bytes 9) [] = .error .out_of_fuel ∧
      cvec2_insert 8 fuel (cvec2_destroy three_ints []).1 (int_bytes 9) 0 []
        = .error .out_of_fuel ∧
      cvec2_insert_fast 8 fuel (cvec2_destroy three_ints []).1 (int_bytes 9) 0 []
        = .error .out_of_fuel) ∧
    (1 ≤ size_add 8 (cvec2_destroy three_ints []).1.len 1
      ↔ (cvec2_destroy three_ints []).1.len ≠ SIZE_MOD 8 - 1) :=
  have t := grow_starves_at_zero_cap 8 (cvec2_destroy three_ints []).1 1 0 (int_bytes 9) []
    (by decide)
  ⟨t.1 (by decide), t.2.1 (by decide), t.2.2.1 (by decide), t.2.2.2.1 (by decide)⟩

/-- C17 (counterexample): destroying the vector `[0, 1, 2]` and calling `cvec2_remove` on
the result gives a vector with `cap = 0` and `len = SIZE_MAX = 2^64 - 1`; on it the target
`len + 1` of `cvec2_grow` wraps around to `0`, and `cvec2_push`, `cvec2_insert` (at
`SIZE_MAX`) and `cvec2_insert_fast` return after one test of the loop condition, with
`cap = 0`. -/
theorem push_returns_at_zero_cap :
    (cvec2_remove 8 (cvec2_destroy three_ints []).1 0 >>= fun v =>
      (cvec2_push 8 1 v (int_bytes 9) []).map (fun s => (v.cap, v.len, s.1.cap, s.1.len)))
      = .ok (0, 2 ^ 64 - 1, 0, 0) ∧
    (cvec2_remove 8 (cvec2_destroy three_ints []).1 0 >>= fun v =>
      (cvec2_insert 8 1 v (int_bytes 9) (2 ^ 64 - 1) []).map (fun s => (s.1.cap, s.1.len)))
      = .ok (0, 0) ∧
    (cvec2_remove 8 (cvec2_destroy three_ints []).1 0 >>= fun v =>
      (cvec2_insert_fast 8 1 v (int_bytes 9) 0 []).map (fun s => (s.1.cap, s.1.len)))
      = .ok (0, 2 ^ 64 - 1) := by
  decide

/-- C18: `insert_fast(1, at = 2)` on the vector `[7, 8, 9]` of 4-byte `int`s changes the
elements at the indices 0 and 1, neither of which is `at`: the displaced element is copied
to the bytes `[len, len + elem_size) = [3, 7)`, not to the slot `len`, so index 0 becomes
`0x09000007` and index 1 becomes `0`. -/
theorem insert_fast_overwrites_other_elements :
    (int_vector [7, 8, 9] >>= fun s => cvec2_insert_fast 8 2 s.1 (int_bytes 1) 2 s.2 >>= fun t =>
      snapshot t.1) = .ok (3, [[7, 0, 0, 9], [0, 0, 0, 0], int_bytes 1]) := by
  decide

/-- C19: on the vector of 4-byte `int`s holding `0, …, 63`, where `len = cap = 64` and the
buffer has `cap * elem_size = 256` bytes, `cvec2_remove(at = 63)` runs its loop for
`i = 63 = len - 1` and reads the byte at index 256, outside the buffer. -/
theorem remove_at_full_capacity_reads_outside :
    (int_vector (List.range 64)).map (fun s =>
        (s.1.len, s.1.cap, s.1.ptr.map List.length,
          (cvec2_remove 8 s.1 63).map (fun w => w.len)))
      = .ok (64, 64, some 256, .error Fault.out_of_bounds) := by
  decide

theorem two_mul_half_range (szt : Nat) (hszt : 0 < szt) :
    2 * 2 ^ (8 * szt - 1) = SIZE_MOD szt := by
  unfold SIZE_MOD
  obtain ⟨m, hm⟩ : ∃ m, 8 * szt = m + 1 := ⟨8 * szt - 1, by omega⟩
  rw [hm, Nat.add_sub_cancel, pow_succ]; ring

/-- C20: with `cap` held in a `w`-bit `size_t`, `w = 8 * sizeof(size_t)`, and the doubling
taken modulo `2^w`: for every vector with `1 ≤ cap < 2^w` and every target `n ≤ 2^(w-1)`,
the doubling of `cvec2_grow` never wraps (after `j ≤ k` executions of the loop body `cap` is
`old_cap * 2^j < 2^w`) and the loop ends after `k` iterations with `n ≤ cap < 2^w`; and there
are a `cap ≥ 1` and a target `n > 2^(w-1)`, both `size_t` values, for which the doubling
brings `cap` to `0` and `cvec2_grow` never returns. -/
theorem grow_in_width {H : Type} (szt : Nat) (v : cvec2_t H) (n : Nat) (h : H)
    (hcap : 1 ≤ v.cap) (hcapM : v.cap < SIZE_MOD szt) (hn : n ≤ 2 ^ (8 * szt - 1)) :
    (∃ k, (∀ j, j ≤ k → (cvec2_grow_body szt)^[j] v.cap = v.cap * 2 ^ j ∧
            v.cap * 2 ^ j < SIZE_MOD szt) ∧
      ∀ fuel, k + 1 ≤ fuel → ∃ w h1, cvec2_grow szt fuel v n h = .ok (w, h1) ∧
        w.cap = (cvec2_grow_body szt)^[k] v.cap ∧ n ≤ w.cap ∧ w.cap < SIZE_MOD szt) ∧
    (∃ c t, 1 ≤ c ∧ c < SIZE_MOD szt ∧ 2 ^ (8 * szt - 1) < t ∧ t < SIZE_MOD szt ∧
      (∃ j, (cvec2_grow_body szt)^[j] c = 0) ∧
      ∀ (u : cvec2_t H) (g : H), u.cap = c → ∀ fuel,
        cvec2_grow szt fuel u t g = .error .out_of_fuel) := by
  have hszt : 0 < szt := by
    rcases Nat.eq_zero_or_pos szt with h0 | hp
    · rw [h0] at hcapM; simp [SIZE_MOD] at hcapM; omega
    · exact hp
  have hhalf := two_mul_half_range szt hszt
  have h2n : 2 * n ≤ SIZE_MOD szt := by omega
  constructor
  · obtain ⟨m, hm1, hm2⟩ := representable_of_le_half szt v.cap n hcap hcapM h2n
    obtain ⟨k, hkm, hk1, hk2⟩ := least_doubling v.cap n m hm1
    have hmono : ∀ j, j ≤ k → v.cap * 2 ^ j < SIZE_MOD szt := by
      intro j hj
      refine lt_of_le_of_lt (Nat.mul_le_mul_left _ (Nat.pow_le_pow_right (by omega) ?_)) hm2
      omega
    have hiter : ∀ j, j ≤ k → (cvec2_grow_body szt)^[j] v.cap = v.cap * 2 ^ j := by
      intro j hj
      rw [grow_body_iterate szt j v.cap hcapM, Nat.mod_eq_of_lt (hmono j hj)]
    have hloop := grow_loop_doubles szt n k v.cap hk1 hk2 (hmono k (le_refl _))
    refine ⟨k, fun j hj => ⟨hiter j hj, hmono j hj⟩, fun fuel hf => ?_⟩
    refine ⟨⟨(v.allocator_set.realloc v.ptr (size_mul szt (v.cap * 2 ^ k) v.elem_size) h).1,
      v.len, v.cap * 2 ^ k, v.elem_size, v.allocator_set⟩,
      (v.allocator_set.realloc v.ptr (size_mul szt (v.cap * 2 ^ k) v.elem_size) h).2,
      by simp only [cvec2_grow, hloop fuel hf], (hiter k (le_refl _)).symm, hk2,
      hmono k (le_refl _)⟩
  · have hpos : 0 < 2 ^ (8 * szt - 1) := by positivity
    have h8 : 2 ≤ 2 ^ (8 * szt - 1) := by
      calc 2 = 2 ^ 1 := by norm_num
        _ ≤ 2 ^ (8 * szt - 1) := Nat.pow_le_pow_right (by omega) (by omega)
    have hM1 : (1 : Nat) < SIZE_MOD szt := by omega
    have hloop : ∀ fuel, cvec2_grow_loop szt fuel 1 (2 ^ (8 * szt - 1) + 1)
        = .error .out_of_fuel := by
      apply grow_loop_wraps szt (2 ^ (8 * szt - 1) + 1) (by omega) (8 * szt) 1 hM1
      · intro j hj
        have hj2 : 2 ^ j ≤ 2 ^ (8 * szt - 1) := Nat.pow_le_pow_right (by omega) (by omega)
        rw [Nat.one_mul, Nat.mod_eq_of_lt (by omega)]
        omega
      · rw [Nat.one_mul]; unfold SIZE_MOD; exact Nat.mod_self _
    refine ⟨1, 2 ^ (8 * szt - 1) + 1, le_refl _, hM1, by omega, by omega, ⟨8 * szt, ?_⟩, ?_⟩
    · rw [grow_body_iterate szt (8 * szt) 1 hM1, Nat.one_mul]
      unfold SIZE_MOD; exact Nat.mod_self _
    · intro u g hu fuel
      simp only [cvec2_grow, hu, hloop fuel]

theorem grow_in_width_witness :
    (∃ k, (∀ j, j ≤ k → (cvec2_grow_body 8)^[j] three_ints.cap = three_ints.cap * 2 ^ j ∧
            three_ints.cap * 2 ^ j < SIZE_MOD 8) ∧
      ∀ fuel, k + 1 ≤ fuel → ∃ w h1, cvec2_grow 8 fuel three_ints (2 ^ 63) [] = .ok (w, h1) ∧
        w.cap = (cvec2_grow_body 8)^[k] three_ints.cap ∧ 2 ^ 63 ≤ w.cap ∧ w.cap < SIZE_MOD 8) ∧
    (∃ c t, 1 ≤ c ∧ c < SIZE_MOD 8 ∧ 2 ^ (8 * 8 - 1) < t ∧ t < SIZE_MOD 8 ∧
      (∃ j, (cvec2_grow_body 8)^[j] c = 0) ∧
      ∀ (u : cvec2_t (List alloc_call)) (g : List alloc_call), u.cap = c → ∀ fuel,
        cvec2_grow 8 fuel u t g = .error .out_of_fuel) :=
  grow_in_width 8 three_ints (2 ^ 63) [] (by decide) (by decide) (by decide)

end Cvec2
